import Mathlib

/-!
Verification development for the espells spellchecking engine
(a TypeScript port of Hunspell/spylls).

Shallow embedding conventions:
* JavaScript strings are modelled as `List Char` (named `Str`); `slice`,
  concatenation and indexing become `take`/`drop`/`++`/`get?`.
* `Set<string>` flag sets are modelled as `List String` with membership
  semantics (`Flags`); `Set` union becomes `++` (the source's `concat`).
* Generators are modelled as list-producing functions; an early generator
  `return` discards only the not-yet-produced tail, which the list
  functions mirror.
* Recursions whose JS counterpart recurses on shrinking string slices are
  given an explicit `fuel` parameter (structural recursion); the theorems
  quantify over all fuel values.
* Modules of the repository that are not present under `src/`
  (`util.ts`, `constants.ts`, `aff/casing.ts`, `aff/affix.ts`, `trie.ts`,
  `dic/index.ts`, `permutations.ts`, `suggest/scores.ts`,
  `suggest/phonet.ts`, `aff/compound-rule.ts`, `aff/compound-pattern.ts`,
  `aff/conv-table.ts`, `aff/rep-pattern.ts`) are modelled from the
  specification; their doc comments say so explicitly.
-/

namespace Espells

/-- A JS string, modelled as a list of characters. -/
abbrev Str := List Char

/-- Helper to build a `Str` from a Lean string literal. -/
def str (s : String) : Str := s.data

/-- A flag (an opaque token identifying an affix class or directive),
`src/aff/types.ts`. -/
abbrev Flag := String

/-- A flag set (`Set<string>` in the source), modelled as a list with
membership semantics. -/
abbrev Flags := List Flag

/-- Capitalization kind, `src/constants.ts` (file not under `src/`;
Modelled from the spec: NO, INIT, ALL, HUH, HUHINIT). -/
inductive CapType where
  | NO
  | INIT
  | ALL
  | HUH
  | HUHINIT
deriving DecidableEq, Repr

/-- Position of a word inside a compound, `src/constants.ts`
(Modelled from the spec: BEGIN, MIDDLE, END). -/
inductive CompoundPos where
  | BEGIN
  | MIDDLE
  | END
deriving DecidableEq, Repr

/-- Modelled from the spec: `util.ts` `includes(flag, flags)` — true when
the (possibly absent) flag is present in the flag set. -/
def includesOpt (f : Option Flag) (fs : Flags) : Bool :=
  match f with
  | none => false
  | some f => fs.contains f

/-- Modelled from the spec: `util.ts` `intersect` — intersection of two
flag sets. -/
def intersectF (a b : Flags) : Flags :=
  a.filter (fun x => b.contains x)

/-- Modelled from the spec: `util.ts` `lowercase`. -/
def lowercaseStr (s : Str) : Str := s.map Char.toLower

/-- Modelled from the spec: `util.ts` `uppercase`. -/
def uppercaseStr (s : Str) : Str := s.map Char.toUpper

/-- Uppercase only the first character (used by case coercion). -/
def upperFirst (s : Str) : Str :=
  match s with
  | [] => []
  | c :: rest => c.toUpper :: rest

/-- Lowercase only the first character (used by casing variants). -/
def lowerFirst (s : Str) : Str :=
  match s with
  | [] => []
  | c :: rest => c.toLower :: rest

/-- Modelled from the spec: `util.ts` `isUppercased` on a possibly absent
character (JS indexing out of range yields `undefined`, which is not an
uppercase character). -/
def isUppercasedOpt (c : Option Char) : Bool :=
  match c with
  | some c => c.isUpper
  | none => false

/-- Modelled from the spec: `util.ts` `isTriplet` — a three character
string whose characters are all identical. -/
def isTriplet (s : Str) : Bool :=
  match s with
  | [a, b, c] => a = b && b = c
  | _ => false

/-- Last `n` characters of a string (JS `slice(-n)` on a sufficiently long
string; on a shorter string the whole string, as in JS). -/
def takeLast (n : Nat) (s : Str) : Str := s.drop (s.length - n)

/-- JS string indexing `s[i]`: `undefined` (here `none`) out of range. -/
def charAt (s : Str) (i : Int) : Option Char :=
  if h : 0 ≤ i ∧ i.toNat < s.length then some (s.get ⟨i.toNat, h.2⟩) else none

/-- Substring test (JS `a.includes(b)`). -/
def containsStr (s sub : Str) : Bool := decide (sub <:+: s)

/-- Modelled from the spec: `constants.ts` `NUMBER_REGEX` — "pure-numeric
tokens are correct": an optional sign followed by digit groups separated
by single `.` or `,` separators. -/
def isNumberStr (s : Str) : Bool :=
  let core := match s with
    | '-' :: rest => rest
    | _ => s
  let groups := List.splitOnP (fun c => c = '.' || c = ',') core
  core ≠ [] && groups.all (fun g => g ≠ [] && g.all Char.isDigit)

section Casing

/-- Modelled from the spec: `aff/casing.ts` `Casing.guess` — classify the
capitalization kind by first-letter and all-letter case inspection. -/
def casingGuess (w : Str) : CapType :=
  if lowercaseStr w = w then .NO
  else if uppercaseStr w = w then .ALL
  else match w with
    | [] => .NO
    | c :: rest =>
      if c.isUpper then
        (if lowercaseStr rest = rest then .INIT else .HUHINIT)
      else .HUH

/-- Title case: uppercase first letter, lowercase the rest
(Modelled from the spec: `aff/casing.ts` `Casing.capitalize`). -/
def capitalizeStr (w : Str) : Str := upperFirst (lowercaseStr w)

/-- Modelled from the spec: `aff/casing.ts` `Casing.variants` — the
original plus lowercased (and, for mixed-case words, first-letter
alternates) forms to attempt as lookup keys. -/
def casingVariants (w : Str) : CapType × List Str :=
  match casingGuess w with
  | .NO => (.NO, [w])
  | .INIT => (.INIT, [w, lowercaseStr w])
  | .HUHINIT => (.HUHINIT, [w, lowerFirst w])
  | .HUH => (.HUH, [w])
  | .ALL => (.ALL, [w, lowercaseStr w, capitalizeStr w])

/-- Modelled from the spec: `aff/casing.ts` `Casing.corrections` — the
forms used when searching for a suggestion (includes title-case when
appropriate). -/
def casingCorrections (w : Str) : CapType × List Str :=
  match casingGuess w with
  | .NO => (.NO, [w])
  | .INIT => (.INIT, [w, lowercaseStr w])
  | .HUHINIT => (.HUHINIT, [w, lowerFirst w, lowercaseStr w, capitalizeStr w])
  | .HUH => (.HUH, [w, lowercaseStr w])
  | .ALL => (.ALL, [w, lowercaseStr w, capitalizeStr w])

/-- Modelled from the spec: `aff/casing.ts` `Casing.coerce` — reshape a
candidate suggestion to match the original's case class. -/
def casingCoerce (w : Str) (cap : CapType) : Str :=
  match cap with
  | .INIT | .HUHINIT => upperFirst w
  | .ALL => uppercaseStr w
  | _ => w

/-- Modelled from the spec: `aff/casing.ts` `Casing.capitalize` used as a
source of capitalized variants by the FORCEUCASE suggestion stage. -/
def casingCapitalizeList (w : Str) : List Str := [capitalizeStr w]

end Casing

section AffixModel

/-- A single token of an affix condition: the spec's regex dialect is a
character-class subset: `[abc]`, `[^abc]`, single chars, and `.`
(Modelled from the spec: `aff/affix.ts` conditions). -/
inductive CondTok where
  /-- `.` — matches any character. -/
  | any
  /-- A single literal character. -/
  | lit (c : Char)
  /-- A character class `[abc]` (`neg` for `[^abc]`). -/
  | cls (cs : List Char) (neg : Bool)
deriving DecidableEq, Repr

/-- One condition token against one character. -/
def condTokMatch (t : CondTok) (c : Char) : Bool :=
  match t with
  | .any => true
  | .lit l => l = c
  | .cls cs neg => if neg then ¬ cs.contains c else cs.contains c

/-- Match a condition against a string segment of exactly the condition's
length. -/
def condSegMatch (cond : List CondTok) (seg : Str) : Bool :=
  cond.length = seg.length && (cond.zip seg).all (fun p => condTokMatch p.1 p.2)

/-- Match a condition at the start (for prefixes) or the end (for
suffixes) of a stem. -/
def condMatches (cond : List CondTok) (atEnd : Bool) (stem : Str) : Bool :=
  cond.length ≤ stem.length &&
    (if atEnd then condSegMatch cond (takeLast cond.length stem)
     else condSegMatch cond (stem.take cond.length))

/-- An affix entry (prefix or suffix), Modelled from the spec:
`aff/affix.ts`. Attributes: the owning class flag; a strip string; an add
string; a condition; a crossproduct bit; an auxiliary flag set. -/
structure Affix where
  flag : Flag
  crossproduct : Bool
  strip : Str
  add : Str
  condition : List CondTok
  flags : Flags
deriving DecidableEq, Repr

/-- Modelled from the spec: `aff/affix.ts` `has` — whether the affix's
auxiliary flag set carries the given flag. -/
def Affix.has (a : Affix) (f : Flag) : Bool := a.flags.contains f

/-- Prefix or suffix role of an affix entry (`AffixType` in
`src/lookup/decompose.ts`). -/
inductive AffixType where
  | PREFIX
  | SUFFIX
deriving DecidableEq, Repr

/-- Modelled from the spec: `aff/affix.ts` `apply(surface)` — strip off
`add` at the affix end and restore `strip`. -/
def Affix.apply (a : Affix) (type : AffixType) (surface : Str) : Str :=
  match type with
  | .PREFIX => a.strip ++ surface.drop a.add.length
  | .SUFFIX => surface.take (surface.length - a.add.length) ++ a.strip

/-- Modelled from the spec: `aff/affix.ts` `on(surface)` — tests
`startsWith(add)` (prefix) / `endsWith(add)` (suffix) and that the
condition matches the portion that would remain after strip is
restored. -/
def Affix.on (a : Affix) (type : AffixType) (surface : Str) : Bool :=
  match type with
  | .PREFIX =>
    a.add.isPrefixOf surface && condMatches a.condition false (a.apply .PREFIX surface)
  | .SUFFIX =>
    a.add.isSuffixOf surface && condMatches a.condition true (a.apply .SUFFIX surface)

/-- Modelled from the spec: `aff/affix.ts` `compatible(required,
forbidden)` — when `required` is empty, treat as "any"; otherwise require
intersection; `forbidden` must be disjoint from the auxiliary flags. -/
def Affix.compatible (a : Affix) (required forbidden : Flags) : Bool :=
  (required.isEmpty || !(intersectF a.flags required).isEmpty) &&
    (intersectF a.flags forbidden).isEmpty

end AffixModel

section WordModel

/-- A word as found in the dictionary index, `src/dic/word.ts` `Word`
(the morphological `data` map is omitted: no claim concerns it). -/
structure Word where
  stem : Str
  capType : CapType
  /-- `flags` is optional in the source (`declare flags?: Flags`). -/
  flags? : Option Flags
  /-- `ph:` alternate spellings used by n-gram suggestions. -/
  altSpellings : List Str
deriving DecidableEq, Repr

/-- Modelled from the spec: `dic/index.ts` `Word.has(flag)` — whether the
word carries the flag. -/
def Word.has (w : Word) (f : Flag) : Bool := (w.flags?.getD []).contains f

/-- The dictionary: the `Dic` class of `dic/index.ts` (not under `src/`),
reduced to its word list; index queries are modelled from the spec. -/
structure Dic where
  words : List Word
deriving DecidableEq, Repr

/-- Modelled from the spec: `dic/index.ts` `homonyms(stem,
caseInsensitive)` — case-sensitive query hits exact stem matches;
case-insensitive query hits all words whose lowercased stem equals
`lowercase(stem)`. -/
def Dic.homonyms (dic : Dic) (stem : Str) (caseInsensitive : Bool) : List Word :=
  if caseInsensitive then
    dic.words.filter (fun w => lowercaseStr w.stem = lowercaseStr stem)
  else
    dic.words.filter (fun w => w.stem = stem)

/-- Modelled from the spec: `dic/index.ts` `hasFlag(stem, flag, all)` —
whether any (or with `all`, every) homonym of `stem` carries `flag`;
false when the flag is unset or the stem has no homonyms. -/
def Dic.hasFlag (dic : Dic) (stem : Str) (f : Option Flag) (all : Bool) : Bool :=
  match f with
  | none => false
  | some f =>
    let homs := dic.homonyms stem false
    if homs.isEmpty then false
    else if all then homs.all (fun w => w.has f)
    else homs.any (fun w => w.has f)

end WordModel

section AffTables

/-- Modelled from the spec: `aff/rep-pattern.ts` — a REP substitution
(`pattern → replacement`). -/
structure RepPattern where
  frm : Str
  toS : Str
deriving DecidableEq, Repr

/-- Modelled from the spec: `aff/conv-table.ts` — ICONV/OCONV pairs; the
`match` operation applies each substitution pair in turn. -/
structure ConvTable where
  pairs : List (Str × Str)
deriving DecidableEq, Repr

/-- Replace every occurrence of `pat` in `s` with `repl` (leftmost,
non-overlapping), by fuel-bounded scanning. -/
def replaceAllStrAux (pat repl : Str) : Nat → Str → Str
  | 0, s => s
  | _ + 1, [] => []
  | fuel + 1, c :: rest =>
    if pat ≠ [] ∧ pat.isPrefixOf (c :: rest) then
      repl ++ replaceAllStrAux pat repl fuel ((c :: rest).drop pat.length)
    else
      c :: replaceAllStrAux pat repl fuel rest

/-- JS `String.replaceAll` with a plain string pattern. -/
def replaceAllStr (s pat repl : Str) : Str :=
  replaceAllStrAux pat repl s.length s

/-- Modelled from the spec: `aff/conv-table.ts` `match`. -/
def ConvTable.matchS (t : ConvTable) (s : Str) : Str :=
  t.pairs.foldl (fun acc p => replaceAllStr acc p.1 p.2) s

/-- A compiled BREAK pattern: the parser escapes the pattern text and
re-enables `^`/`$` anchors (`src/aff/index.ts`, BREAK case), so a pattern
is a literal string optionally anchored at the start or the end. -/
structure BreakPat where
  pat : Str
  atStart : Bool
  atEnd : Bool
deriving DecidableEq, Repr

/-- All matches of a BREAK pattern in `text` as `(index, length)` pairs
(JS `matchAll` semantics for these anchored literal patterns:
non-overlapping, scanning left to right). -/
def BreakPat.matches (p : BreakPat) (text : Str) : List (Nat × Nat) :=
  if p.pat = [] then []
  else if p.atStart then
    if p.pat.isPrefixOf text then [(0, p.pat.length)] else []
  else if p.atEnd then
    if p.pat.isSuffixOf text then [(text.length - p.pat.length, p.pat.length)] else []
  else
    (List.range text.length).filterMap (fun i =>
      if p.pat.isPrefixOf (text.drop i) ∧
          (∀ j ∈ List.range p.pat.length, ¬ (j < i ∧ i < j + p.pat.length)) then
        some (i, p.pat.length)
      else none)

/-- One token of a COMPOUNDRULE pattern (Modelled from the spec:
`aff/compound-rule.ts` — a small regex over class flags, e.g. `A B*C`). -/
inductive RuleTok where
  | once (f : Flag)
  | many (f : Flag)
  | opt (f : Flag)
deriving DecidableEq, Repr

/-- A COMPOUNDRULE (Modelled from the spec: `aff/compound-rule.ts`). -/
structure CompoundRule where
  toks : List RuleTok
deriving DecidableEq, Repr

/-- Whether a token sequence can match the empty sequence of parts. -/
def ruleNullable (toks : List RuleTok) : Bool :=
  toks.all (fun t => match t with | .once _ => false | _ => true)

/-- Fuel-bounded regex matcher over per-part flag sets: full match, or
(`part = true`) a partial match accepting the sequence seen so far
(Modelled from the spec: `aff/compound-rule.ts` `match(flagSets,
partial)`). -/
def ruleMatchAux (part : Bool) : Nat → List RuleTok → List Flags → Bool
  | 0, _, _ => false
  | _ + 1, toks, [] => if part then true else ruleNullable toks
  | _ + 1, [], _ :: _ => false
  | fuel + 1, .once f :: ts, s :: ss =>
    s.contains f && ruleMatchAux part fuel ts ss
  | fuel + 1, .many f :: ts, s :: ss =>
    ruleMatchAux part fuel ts (s :: ss) ||
      (s.contains f && ruleMatchAux part fuel (.many f :: ts) ss)
  | fuel + 1, .opt f :: ts, s :: ss =>
    ruleMatchAux part fuel ts (s :: ss) ||
      (s.contains f && ruleMatchAux part fuel ts ss)

/-- Modelled from the spec: `aff/compound-rule.ts` `match`. -/
def CompoundRule.matchR (r : CompoundRule) (flagSets : List Flags) (part : Bool) : Bool :=
  ruleMatchAux part (r.toks.length + flagSets.length + r.toks.length * flagSets.length + 1)
    r.toks flagSets

/-- A CHECKCOMPOUNDPATTERN row (Modelled from the spec:
`aff/compound-pattern.ts` — left-end, right-start, optional
replacement). -/
structure CompoundPattern where
  left : Str
  right : Str
  replacement : Option Str
deriving DecidableEq, Repr

/-- Modelled from the spec: `aff/compound-pattern.ts` `match(left, right)`
— the left paradigm's text ends with the pattern's left part and the right
paradigm's text starts with the pattern's right part. -/
def CompoundPattern.matchP (p : CompoundPattern) (leftText rightText : Str) : Bool :=
  p.left.isSuffixOf leftText && p.right.isPrefixOf rightText

/-- The default BREAK set (`constants.ts` `DEFAULT_BREAK`: `^-`, `-$`,
`-`; Modelled from the spec). -/
def defaultBreak : List BreakPat :=
  [⟨[ '-' ], true, false⟩, ⟨[ '-' ], false, true⟩, ⟨[ '-' ], false, false⟩]

/-- A resolved and parsed representation of the data found in a Hunspell
`.aff` file: `src/aff/index.ts` `Aff`, restricted to the fields the core
consumes (unused/parser-only fields omitted). Field defaults in the
source: `COMPOUNDMIN = 3`, `MAXCPDSUGS = 3`, `MAXNGRAMSUGS = 4`,
`MAXDIFF = 1`, `KEY = "qwertyuiop|asdfghjkl|zxcvbnm"`, `TRY = ""`,
`BREAK = DEFAULT_BREAK`, booleans false, tables empty. -/
structure Aff where
  LANG : Option String
  IGNORE : Option (List Char)
  CHECKSHARPS : Bool
  FORBIDDENWORD : Option Flag
  KEY : Str
  TRY : Str
  NOSUGGEST : Option Flag
  KEEPCASE : Option Flag
  REP : List RepPattern
  MAP : List (List Str)
  NOSPLITSUGS : Bool
  PHONE : Option (List (Str × Str))
  MAXCPDSUGS : Nat
  MAXNGRAMSUGS : Nat
  MAXDIFF : Nat
  ONLYMAXDIFF : Bool
  PFX : List Affix
  SFX : List Affix
  NEEDAFFIX : Option Flag
  CIRCUMFIX : Option Flag
  COMPLEXPREFIXES : Bool
  FULLSTRIP : Bool
  BREAK : List BreakPat
  COMPOUNDRULE : List CompoundRule
  COMPOUNDMIN : Nat
  COMPOUNDWORDMAX : Option Nat
  COMPOUNDFLAG : Option Flag
  COMPOUNDBEGIN : Option Flag
  COMPOUNDMIDDLE : Option Flag
  COMPOUNDEND : Option Flag
  ONLYINCOMPOUND : Option Flag
  COMPOUNDPERMITFLAG : Option Flag
  COMPOUNDFORBIDFLAG : Option Flag
  FORCEUCASE : Option Flag
  CHECKCOMPOUNDCASE : Bool
  CHECKCOMPOUNDREP : Bool
  CHECKCOMPOUNDTRIPLE : Bool
  CHECKCOMPOUNDDUP : Bool
  CHECKCOMPOUNDPATTERN : List CompoundPattern
  SIMPLIFIEDTRIPLE : Bool
  ICONV : Option ConvTable
  OCONV : Option ConvTable
  WARN : Option Flag
  FORBIDWARN : Bool
deriving DecidableEq, Repr

/-- An `Aff` with every directive at its source default
(`src/aff/index.ts` field initializers). -/
def defaultAff : Aff where
  LANG := none
  IGNORE := none
  CHECKSHARPS := false
  FORBIDDENWORD := none
  KEY := str "qwertyuiop|asdfghjkl|zxcvbnm"
  TRY := str ""
  NOSUGGEST := none
  KEEPCASE := none
  REP := []
  MAP := []
  NOSPLITSUGS := false
  PHONE := none
  MAXCPDSUGS := 3
  MAXNGRAMSUGS := 4
  MAXDIFF := 1
  ONLYMAXDIFF := false
  PFX := []
  SFX := []
  NEEDAFFIX := none
  CIRCUMFIX := none
  COMPLEXPREFIXES := false
  FULLSTRIP := false
  BREAK := defaultBreak
  COMPOUNDRULE := []
  COMPOUNDMIN := 3
  COMPOUNDWORDMAX := none
  COMPOUNDFLAG := none
  COMPOUNDBEGIN := none
  COMPOUNDMIDDLE := none
  COMPOUNDEND := none
  ONLYINCOMPOUND := none
  COMPOUNDPERMITFLAG := none
  COMPOUNDFORBIDFLAG := none
  FORCEUCASE := none
  CHECKCOMPOUNDCASE := false
  CHECKCOMPOUNDREP := false
  CHECKCOMPOUNDTRIPLE := false
  CHECKCOMPOUNDDUP := false
  CHECKCOMPOUNDPATTERN := []
  SIMPLIFIEDTRIPLE := false
  ICONV := none
  OCONV := none
  WARN := none
  FORBIDWARN := false

/-- `src/aff/index.ts` `isSharps` — false when `CHECKSHARPS` is disabled,
otherwise whether the word contains `ß`. -/
def Aff.isSharps (aff : Aff) (word : Str) : Bool :=
  if ¬ aff.CHECKSHARPS then false
  else word.contains 'ß'

/-- The spellchecking engine: affix data plus dictionary (the pair that
`Lookup`, `LKWord` and `Suggest` all carry). -/
structure Engine where
  aff : Aff
  dic : Dic
deriving DecidableEq, Repr

end AffTables

section LKWordModel

/-- `src/lookup/lk-word.ts` `LKWord`: a word wrapped with metadata. The
`aff`/`dic` references are carried by the ambient `Engine` instead of the
structure itself. -/
structure LKWord where
  word : Str
  type : CapType
  pos : Option CompoundPos
deriving DecidableEq, Repr

/-- `LKWord.to(word, captype = this.type)`: reuse the metadata on a new
word. -/
def LKWord.toW (w : LKWord) (word : Str) : LKWord := ⟨word, w.type, w.pos⟩

/-- `LKWord.to(word, captype)` with an explicit capitalization type. -/
def LKWord.toWC (w : LKWord) (word : Str) (captype : CapType) : LKWord :=
  ⟨word, captype, w.pos⟩

/-- `LKWord.shift(pos)`: change the compound position. -/
def LKWord.shift (w : LKWord) (pos : Option CompoundPos) : LKWord :=
  ⟨w.word, w.type, pos⟩

/-- `LKWord.slice(0, to)`. -/
def LKWord.sliceTo (w : LKWord) (n : Nat) : LKWord := w.toW (w.word.take n)

/-- `LKWord.slice(from)`. -/
def LKWord.sliceFrom (w : LKWord) (n : Nat) : LKWord := w.toW (w.word.drop n)

/-- `LKWord.add(str)`, called in the source with the result of `at` (a
possibly absent character); JS would stringify `undefined`, which is
unreachable for the non-empty pieces involved, so the absent case is
modelled as the unchanged word. -/
def LKWord.addC (w : LKWord) (c : Option Char) : LKWord :=
  match c with
  | some c => w.toW (w.word ++ [c])
  | none => w

/-- `LKWord.at(n)` as written at `src/lookup/lk-word.ts:96-99` (first
copy): for negative `n` it reads `word[length - n]`, an index past the
end, which in JS is `undefined`. -/
def LKWord.atOld (w : LKWord) (n : Int) : Option Char :=
  if n < 0 then charAt w.word ((w.word.length : Int) - n)
  else charAt w.word n

/-- `LKWord.at(n)` as written at `src/lookup/lk-word.ts:488-491` (second
copy): negative indices count from the end (`word[length + n]`). -/
def LKWord.at (w : LKWord) (n : Int) : Option Char :=
  if n < 0 then charAt w.word ((w.word.length : Int) + n)
  else charAt w.word n

/-- `src/lookup/lk-flags.ts` `LKFlags`: the decomposition constraint
triple (required-on-prefix, required-on-suffix, forbidden-anywhere). The
source field names are `prefix`/`suffix`/`forbidden`. -/
structure LKFlags where
  pfx : Flags
  sfx : Flags
  forbidden : Flags
deriving DecidableEq, Repr

/-- The empty `new LKFlags()`. -/
def LKFlags.empty : LKFlags := ⟨[], [], []⟩

end LKWordModel

section AffixFormModel

/-- `src/lookup/forms.ts` `AffixForm`: a hypothesis of how a word may be
represented as prefix(es), stem and suffix(es). The source fields
`prefix`/`suffix` (outermost) and `prefix2`/`suffix2` (innermost) are
named `pfx`/`sfx`/`pfx2`/`sfx2` here. -/
structure AffixForm where
  text : Str
  stem : Str
  pfx : Option Affix
  sfx : Option Affix
  pfx2 : Option Affix
  sfx2 : Option Affix
  inDictionary : Option Word
deriving DecidableEq, Repr

/-- `new AffixForm(word)` on an `LKWord`: text and stem are the word. -/
def AffixForm.ofWord (w : LKWord) : AffixForm :=
  ⟨w.word, w.word, none, none, none, none, none⟩

/-- `new AffixForm(text, stem, opts)` with explicit options; an absent
option keeps the constructor defaults (`undefined`). -/
def AffixForm.make (text stem : Str) (pfx sfx pfx2 sfx2 : Option Affix)
    (inDictionary : Option Word) : AffixForm :=
  ⟨text, stem, pfx, sfx, pfx2, sfx2, inDictionary⟩

/-- `AffixForm.replace(opts)`: clone with any given properties replaced
(`opts.x ?? this.x`). Arguments in source field order: text, stem,
prefix, suffix, prefix2, suffix2, inDictionary. -/
def AffixForm.replaceF (f : AffixForm) (text stem : Option Str)
    (pfx sfx pfx2 sfx2 : Option Affix) (inDictionary : Option Word) : AffixForm :=
  ⟨text.getD f.text, stem.getD f.stem,
    pfx <|> f.pfx, sfx <|> f.sfx, pfx2 <|> f.pfx2, sfx2 <|> f.sfx2,
    inDictionary <|> f.inDictionary⟩

/-- `AffixForm.hasAffixes`: true if the form has an outer suffix or an
outer prefix. -/
def AffixForm.hasAffixes (f : AffixForm) : Bool :=
  f.sfx.isSome || f.pfx.isSome

/-- `AffixForm.flags` (src/lookup/forms.ts:258-263): the dictionary
word's flags, plus the outer prefix's flags if present, plus the outer
suffix's flags if present. -/
def AffixForm.flagsF (f : AffixForm) : Flags :=
  let flags := match f.inDictionary with
    | some w => w.flags?.getD []
    | none => []
  let flags := match f.pfx with
    | some p => flags ++ p.flags
    | none => flags
  match f.sfx with
  | some s => flags ++ s.flags
  | none => flags

/-- `AffixForm.affixes()`: every prefix and suffix the form has, in
source order `[prefix2, prefix, suffix, suffix2]`. -/
def AffixForm.affixesList (f : AffixForm) : List Affix :=
  [f.pfx2, f.pfx, f.sfx, f.sfx2].filterMap id

/-- Modelled from the spec: the `AffixForm.has` method referenced by
`validForm` (src/unnamed/part_000) but absent from the `AffixForm` class
under `src/`; modelled as membership in the form's flag set. -/
def AffixForm.hasF (f : AffixForm) (flag : Flag) : Bool :=
  f.flagsF.contains flag

/-- The rejection condition of the NEEDAFFIX block inside
`AffixForm.valid` (src/lookup/forms.ts:298-306): when NEEDAFFIX is
configured, a form with affixes is rejected when every affix carries
NEEDAFFIX, and a form without affixes is rejected when its root carries
NEEDAFFIX. -/
def needAffixRejected (aff : Aff) (form : AffixForm) (rootFlags : Flags) : Bool :=
  match aff.NEEDAFFIX with
  | none => false
  | some na =>
    if form.hasAffixes then form.affixesList.all (fun a => a.has na)
    else rootFlags.contains na

/-- `AffixForm.valid(word, allowNoSuggest)` (src/lookup/forms.ts:280-333,
i.e. src/src/dic/word.ts lines 280-333 of the concatenated file): the
form validator used by the `LKWord.candidates` path. The final `switch`
has no `break` statements, so every case falls through and the last
executed assignment — the COMPOUNDEND test — decides `passes` for all
three compound positions. -/
def AffixForm.validB (e : Engine) (form : AffixForm) (w : LKWord)
    (allowNoSuggest : Bool) : Bool :=
  match form.inDictionary with
  | none => false
  | some dword =>
    let aff := e.aff
    let rootFlags := dword.flags?.getD []
    let allFlags := form.flagsF
    if ¬ allowNoSuggest ∧ includesOpt aff.NOSUGGEST rootFlags then false
    else if w.type ≠ dword.capType ∧ includesOpt aff.KEEPCASE rootFlags ∧
        ¬ aff.isSharps dword.stem then false
    else if needAffixRejected aff form rootFlags then false
    else if (match form.pfx with
             | some p => !(allFlags.contains p.flag)
             | none => false) then false
    else if (match form.sfx with
             | some s => !(allFlags.contains s.flag)
             | none => false) then false
    else if (match aff.CIRCUMFIX with
             | some cf =>
               (match form.sfx with | some s => s.has cf | none => false) !=
                 (match form.pfx with | some p => p.has cf | none => false)
             | none => false) then false
    else
      match w.pos with
      | none => ¬ includesOpt aff.ONLYINCOMPOUND allFlags
      | some pos =>
        if includesOpt aff.COMPOUNDFLAG allFlags then true
        else
          -- `switch (word.pos)` without `break`: after the matched label,
          -- every later assignment also runs, so `passes` ends as the
          -- COMPOUNDEND test for BEGIN, MIDDLE and END alike.
          match pos with
          | .BEGIN => includesOpt aff.COMPOUNDEND allFlags
          | .MIDDLE => includesOpt aff.COMPOUNDEND allFlags
          | .END => includesOpt aff.COMPOUNDEND allFlags

/-- `validForm(form, word, allowNoSuggest)` (src/unnamed/part_000, lines
86-130): the form validator used by the free-function `affixForms` path.
Its final `switch` returns from each case, so each compound position
tests exactly its own flag. -/
def validFormB (e : Engine) (form : AffixForm) (w : LKWord)
    (allowNoSuggest : Bool) : Bool :=
  match form.inDictionary with
  | none => false
  | some dword =>
    let aff := e.aff
    let rootFlags := dword.flags?.getD []
    let allFlags := form.flagsF
    if ¬ allowNoSuggest ∧ includesOpt aff.NOSUGGEST rootFlags then false
    else if w.type ≠ dword.capType ∧ includesOpt aff.KEEPCASE rootFlags ∧
        ¬ aff.isSharps dword.stem then false
    else if (match aff.NEEDAFFIX with
             | some na => form.hasF na || rootFlags.contains na
             | none => false) then false
    else if (match form.pfx with
             | some p => !(allFlags.contains p.flag)
             | none => false) then false
    else if (match form.sfx with
             | some s => !(allFlags.contains s.flag)
             | none => false) then false
    else if (match aff.CIRCUMFIX with
             | some cf =>
               (match form.sfx with | some s => s.has cf | none => false) !=
                 (match form.pfx with | some p => p.has cf | none => false)
             | none => false) then false
    else
      match w.pos with
      | none => ¬ includesOpt aff.ONLYINCOMPOUND allFlags
      | some pos =>
        if includesOpt aff.COMPOUNDFLAG allFlags then true
        else
          match pos with
          | .BEGIN => includesOpt aff.COMPOUNDBEGIN allFlags
          | .MIDDLE => includesOpt aff.COMPOUNDMIDDLE allFlags
          | .END => includesOpt aff.COMPOUNDEND allFlags

end AffixFormModel

section DecomposeModel

/-- Modelled from the spec: `trie.ts` `segments` — the affix entries
whose key is a prefix of the query (the trie stores entries keyed by
their add strings; the suffix index uses reversed keys and is queried
with the reversed surface). -/
def trieSegments (entries : List Affix) (key : Affix → Str) (query : Str) : List Affix :=
  entries.filter (fun a => (key a).isPrefixOf query)

/-- `src/lookup/decompose.ts` `affixes(aff, type, word, flags,
crossproduct)`: enumerate candidate affixes from the trie index and
filter by crossproduct, `on` and `compatible`. -/
def affixCandidates (aff : Aff) (type : AffixType) (word : Str) (flags : LKFlags)
    (crossproduct : Bool) : List Affix :=
  let isSuffix := type = AffixType.SUFFIX
  let segs :=
    if isSuffix then trieSegments aff.SFX (fun a => a.add.reverse) word.reverse
    else trieSegments aff.PFX (fun a => a.add) word
  let required := if isSuffix then flags.sfx else flags.pfx
  segs.filter (fun affix =>
    (¬ (isSuffix ∧ ¬ (¬ crossproduct ∨ affix.crossproduct))) ∧
      affix.on type word ∧ affix.compatible required flags.forbidden)

/-- The `nested = true` recursive call of `desuffix`
(src/lookup/decompose.ts:119-138): it yields only the direct
decompositions and does not recurse further. -/
def desuffixInner (aff : Aff) (word : Str) (flags : LKFlags)
    (crossproduct : Bool) : List AffixForm :=
  (affixCandidates aff .SUFFIX word flags crossproduct).map (fun suffix =>
    AffixForm.make word (suffix.apply .SUFFIX word) none (some suffix) none none none)

/-- `desuffix(aff, word, flags, crossproduct)`
(src/lookup/decompose.ts:119-138) with the source's `nested` flag
unrolled (`desuffixInner` is the nested call): each suffix yields its
form and then the doubly-desuffixed forms re-texted to the original
word, with the outer suffix recorded as `suffix2`. -/
def desuffixList (aff : Aff) (word : Str) (flags : LKFlags)
    (crossproduct : Bool) : List AffixForm :=
  (affixCandidates aff .SUFFIX word flags crossproduct).flatMap (fun suffix =>
    let stem := suffix.apply .SUFFIX word
    AffixForm.make word stem none (some suffix) none none none ::
      (desuffixInner aff stem
          ⟨flags.pfx, suffix.flags ++ flags.sfx, flags.forbidden⟩ crossproduct).map
        (fun f2 => f2.replaceF (some word) none none none none (some suffix) none))

/-- The `nested = true` recursive call of `deprefix`
(src/lookup/decompose.ts:149-167). -/
def deprefixInner (aff : Aff) (word : Str) (flags : LKFlags) : List AffixForm :=
  (affixCandidates aff .PREFIX word flags false).map (fun p =>
    AffixForm.make word (p.apply .PREFIX word) (some p) none none none none)

/-- `deprefix(aff, word, flags)` (src/lookup/decompose.ts:149-167) with
the `nested` flag unrolled; double deprefixing only under
COMPLEXPREFIXES. -/
def deprefixList (aff : Aff) (word : Str) (flags : LKFlags) : List AffixForm :=
  (affixCandidates aff .PREFIX word flags false).flatMap (fun p =>
    let stem := p.apply .PREFIX word
    AffixForm.make word stem (some p) none none none none ::
      (if aff.COMPLEXPREFIXES then
        (deprefixInner aff stem ⟨p.flags ++ flags.pfx, flags.sfx, flags.forbidden⟩).map
          (fun f2 => f2.replaceF (some word) none none (some p) none none none)
      else []))

/-- `decompose(word, flags)` (src/lookup/decompose.ts:47-70): the
identity form, then suffix decompositions, then prefix decompositions
each followed by its cross-product suffix decompositions. -/
def decomposeList (aff : Aff) (w : LKWord) (flags : LKFlags) : List AffixForm :=
  let suffixAllowed :=
    w.pos = none ∨ w.pos = some CompoundPos.END ∨ flags.sfx ≠ []
  let prefixAllowed :=
    w.pos = none ∨ w.pos = some CompoundPos.BEGIN ∨ flags.pfx ≠ []
  AffixForm.ofWord w ::
    ((if suffixAllowed then desuffixList aff w.word flags false else []) ++
      (if prefixAllowed then
        (deprefixList aff w.word flags).flatMap (fun form =>
          form ::
            (if suffixAllowed ∧ ((match form.pfx with
                                 | some p => p.crossproduct
                                 | none => false) = true) then
              (desuffixList aff form.stem flags true).map
                (fun f2 => f2.replaceF (some form.text) none form.pfx none none none none)
            else []))
      else []))

end DecomposeModel

section AffixFormsEnum

/-- `LKWord.hasForbidden(form, words)` (src/lookup/lk-word.ts:546-553):
whether any of the homonyms carries FORBIDDENWORD; the whole-word form
outside a compound is exempt. -/
def hasForbiddenB (e : Engine) (w : LKWord) (form : AffixForm)
    (words : List Word) : Bool :=
  match e.aff.FORBIDDENWORD with
  | none => false
  | some fw =>
    if w.pos = none ∧ ¬ form.hasAffixes then false
    else words.any (fun word => word.has fw)

/-- `LKWord.candidates(form, allowNoSuggest, stem, homonyms)`
(src/lookup/lk-word.ts:560-575): each homonym is substituted into the
form, and the candidates accepted by `AffixForm.valid` are kept. -/
def candidatesList (e : Engine) (w : LKWord) (aNS : Bool) (form : AffixForm)
    (homonyms : List Word) : List AffixForm :=
  homonyms.filterMap (fun homonym =>
    let candidate := form.replaceF none none none none none none (some homonym)
    if candidate.validB e w aNS then some candidate else none)

/-- The abort test at the head of the `decompose` loop body of
`LKWord.affixForms` (src/lookup/lk-word.ts:523-524): a non-empty homonym
set containing a forbidden word ends the whole enumeration unless
`withForbidden` is set. -/
def affixFormsAbort (e : Engine) (w : LKWord) (withForbidden : Bool)
    (form : AffixForm) : Bool :=
  let homonyms := e.dic.homonyms form.stem false
  !homonyms.isEmpty && !withForbidden && hasForbiddenB e w form homonyms

/-- The candidates produced for one decomposed form by the loop body of
`LKWord.affixForms` (src/lookup/lk-word.ts:521-542): the homonym
candidates, the FORCEUCASE/INIT lowercase candidates at compound BEGIN
(whose emptiness reassigns `found`), and — when nothing was found, the
word stands alone and is an all-caps spelling of a caseless stem — the
case-insensitive candidates. -/
def affixFormsStep (e : Engine) (w : LKWord) (aNS : Bool)
    (form : AffixForm) : List AffixForm :=
  let homonyms := e.dic.homonyms form.stem false
  let c1 := if ¬ homonyms.isEmpty then candidatesList e w aNS form homonyms else []
  let found1 := if ¬ homonyms.isEmpty then ¬ c1.isEmpty else False
  let branch2 :=
    w.pos = some CompoundPos.BEGIN ∧ e.aff.FORCEUCASE.isSome ∧ w.type = CapType.INIT
  let c2 :=
    if branch2 then
      candidatesList e w aNS form (e.dic.homonyms (lowercaseStr form.stem) true)
    else []
  -- `found` is reassigned by the FORCEUCASE branch when it runs
  let found := if branch2 then ¬ c2.isEmpty else found1
  let c3 :=
    if ¬ found ∧ w.pos = none ∧ w.type = CapType.ALL ∧ casingGuess w.word = CapType.NO
    then candidatesList e w aNS form (e.dic.homonyms form.stem true)
    else []
  c1 ++ c2 ++ c3

/-- The body of the `for (const form of decompose(...))` loop of
`LKWord.affixForms` (src/lookup/lk-word.ts:517-544), over the remaining
decomposed forms; a forbidden homonym aborts the whole enumeration
(generator `return`), discarding the still unprocessed forms. -/
def affixFormsGo (e : Engine) (w : LKWord) (aNS withForbidden : Bool) :
    List AffixForm → List AffixForm
  | [] => []
  | form :: rest =>
    if affixFormsAbort e w withForbidden form then []
    else affixFormsStep e w aNS form ++ affixFormsGo e w aNS withForbidden rest

/-- `LKWord.affixForms(allowNoSuggest, withForbidden, flags)`
(src/lookup/lk-word.ts:517-544). -/
def affixFormsList (e : Engine) (w : LKWord) (aNS withForbidden : Bool)
    (flags : LKFlags) : List AffixForm :=
  affixFormsGo e w aNS withForbidden (decomposeList e.aff w flags)

end AffixFormsEnum

section Permutations

/-- Output of `replchars`: a plain replacement or a two-word split. -/
inductive ReplOut where
  | one (s : Str)
  | pair (ws : List Str)
deriving DecidableEq, Repr

/-- All indices at which `pat` occurs in `s`. -/
def occurrences (s pat : Str) : List Nat :=
  if pat = [] then []
  else (List.range s.length).filter (fun i => pat.isPrefixOf (s.drop i))

/-- Replace the occurrence of `pat` at index `i` with `repl`. -/
def replaceAt (s : Str) (i : Nat) (patLen : Nat) (repl : Str) : Str :=
  s.take i ++ repl ++ s.drop (i + patLen)

/-- Modelled from the spec: `permutations.ts` `replchars(word, REP)` —
apply one REP rule at one position; a replacement containing a space
also yields the corresponding two-word split. -/
def replcharsList (word : Str) (reps : List RepPattern) : List ReplOut :=
  if word.length < 2 then []
  else
    reps.flatMap (fun rep =>
      (occurrences word rep.frm).flatMap (fun i =>
        let sug := replaceAt word i rep.frm.length rep.toS
        ReplOut.one sug ::
          (if sug.contains ' ' then
            [ReplOut.pair (List.splitOnP (fun c => c = ' ') sug)]
          else [])))

/-- Modelled from the spec: `permutations.ts` `mapchars(word, MAP)` —
substitute one occurrence of a MAP class member by another member of the
same class. -/
def mapcharsList (word : Str) (map : List (List Str)) : List Str :=
  map.flatMap (fun cls =>
    cls.flatMap (fun a =>
      (occurrences word a).flatMap (fun i =>
        (cls.filter (fun b => b ≠ a)).map (fun b => replaceAt word i a.length b))))

/-- Swap the characters at positions `i` and `j`. -/
def swapAt (word : Str) (i j : Nat) : Str :=
  (List.range word.length).map (fun k =>
    if k = i then word.getD j ' '
    else if k = j then word.getD i ' '
    else word.getD k ' ')

/-- Modelled from the spec: `permutations.ts` `swapchar(word)` — swap any
two adjacent characters; plus the full two-swaps for 4- and 5-letter
words. -/
def swapcharList (word : Str) : List Str :=
  if word.length < 2 then []
  else
    (List.range (word.length - 1)).map (fun i => swapAt word i (i + 1)) ++
      (if word.length = 4 ∨ word.length = 5 then
        [swapAt (swapAt word 0 1) (word.length - 2) (word.length - 1)]
      else [])

/-- Modelled from the spec: `permutations.ts` `longswapchar(word)` — swap
non-adjacent pairs up to distance 4. -/
def longswapcharList (word : Str) : List Str :=
  (List.range word.length).flatMap (fun i =>
    (List.range word.length).filterMap (fun j =>
      if i + 2 ≤ j ∧ j ≤ i + 4 then some (swapAt word i j) else none))

/-- Modelled from the spec: `permutations.ts` `badchar(word, TRY)` —
replace one character with each TRY-list character. -/
def badcharList (word : Str) (tryChars : Str) : List Str :=
  tryChars.flatMap (fun c =>
    (List.range word.length).filterMap (fun i =>
      if word.getD i c = c then none
      else some (replaceAt word i 1 [c])))

/-- The rows of the KEY layout (split on the `|` separators). -/
def keyRows (key : Str) : List Str :=
  List.splitOnP (fun c => c = '|') key

/-- Modelled from the spec: `permutations.ts` `badcharkey(word, KEY)` —
replace one character with its keyboard neighbor (KEY rows, `|`
splits). -/
def badcharkeyList (word : Str) (key : Str) : List Str :=
  (List.range word.length).flatMap (fun i =>
    let c := word.getD i ' '
    (keyRows key).flatMap (fun row =>
      (occurrences row [c]).flatMap (fun p =>
        (if p > 0 then [replaceAt word i 1 [row.getD (p - 1) c]] else []) ++
          (if p + 1 < row.length then [replaceAt word i 1 [row.getD (p + 1) c]]
          else []))))

/-- Modelled from the spec: `permutations.ts` `extrachar(word)` — delete
one character. -/
def extracharList (word : Str) : List Str :=
  (List.range word.length).map (fun i => word.take i ++ word.drop (i + 1))

/-- Modelled from the spec: `permutations.ts` `forgotchar(word, TRY)` —
insert a TRY character at every position. -/
def forgotcharList (word : Str) (tryChars : Str) : List Str :=
  tryChars.flatMap (fun c =>
    (List.range (word.length + 1)).map (fun i => word.take i ++ c :: word.drop i))

/-- Modelled from the spec: `permutations.ts` `movechar(word)` — move one
character between 2 and 4 positions away. -/
def movecharList (word : Str) : List Str :=
  (List.range word.length).flatMap (fun i =>
    (List.range word.length).filterMap (fun j =>
      if i + 2 ≤ j ∧ j ≤ i + 4 ∧ j < word.length then
        some ((word.take i ++ word.drop (i + 1)).take j ++
          word.getD i ' ' :: (word.take i ++ word.drop (i + 1)).drop j)
      else none))

/-- Modelled from the spec: `permutations.ts` `doubletwochars(word)` —
undo doubled bigrams (`foofoo → foo`), for words of length at least 5. -/
def doubletwocharsList (word : Str) : List Str :=
  if word.length < 5 then []
  else
    (List.range word.length).filterMap (fun i =>
      if 3 ≤ i ∧ word.getD i ' ' = word.getD (i - 2) ' ' ∧
          word.getD (i - 1) ' ' = word.getD (i - 3) ' ' then
        some (word.take (i - 1) ++ word.drop (i + 1))
      else none)

/-- Modelled from the spec: `permutations.ts` `twowords(word)` — all
single splits into two non-empty words. -/
def twowordsList (word : Str) : List (List Str) :=
  (List.range word.length).filterMap (fun i =>
    if 1 ≤ i ∧ i < word.length then some [word.take i, word.drop i] else none)

end Permutations

section CompoundEngine

/-- `Word.flagSets(parts)` (referenced by `compoundsByRules`; the static
helper lives in the `dic` module, Modelled from the spec): the flag sets
of the parts that have flags, deduplicated as a `Set`. -/
def wordFlagSets (parts : List Word) : List Flags :=
  (parts.filterMap (fun w => w.flags?)).eraseDups

/-- The adjacent-pair checks of `isBadCompound`
(src/lookup/forms.ts:368-424): `compound.slice(0, -1).some(...)` over
adjacent pairs; `isLastPair` captures `idx === compound.length - 2`. -/
def badPairCheck (e : Engine) (w : LKWord) (leftP rightP : AffixForm)
    (isLastPair : Bool) : Bool :=
  let aff := e.aff
  let left := leftP.text
  let right := rightP.text
  e.dic.hasFlag left aff.COMPOUNDFORBIDFLAG false ||
    ¬ (affixFormsList e (w.toWC (left ++ ' ' :: right) w.type) true false
        LKFlags.empty).isEmpty ||
    (if aff.CHECKCOMPOUNDREP then
      (replcharsList (left ++ right) aff.REP).any (fun candidate =>
        match candidate with
        | .one s =>
          ¬ (affixFormsList e (w.toWC s w.type) true false LKFlags.empty).isEmpty
        | .pair _ => false)
    else false) ||
    (if aff.CHECKCOMPOUNDTRIPLE then
      isTriplet (takeLast 2 left ++ right.take 1) ||
        isTriplet (takeLast 1 left ++ right.take 2)
    else false) ||
    (if aff.CHECKCOMPOUNDCASE then
      (isUppercasedOpt right.head? || isUppercasedOpt left.getLast?) &&
        right.head? ≠ some '-' && left.getLast? ≠ some '-'
    else false) ||
    (if ¬ aff.CHECKCOMPOUNDPATTERN.isEmpty then
      aff.CHECKCOMPOUNDPATTERN.any (fun pat => pat.matchP left right)
    else false) ||
    (if aff.CHECKCOMPOUNDDUP then left = right && isLastPair else false)

/-- Iterate `badPairCheck` over adjacent pairs. -/
def badPairsAny (e : Engine) (w : LKWord) : List AffixForm → Bool
  | l :: r :: rest => badPairCheck e w l r rest.isEmpty || badPairsAny e w (r :: rest)
  | _ => false

/-- `isBadCompound(word, compound, captype)`
(src/lookup/forms.ts:358-425): FORCEUCASE on the last part, then the
adjacent-pair checks. -/
def isBadCompoundB (e : Engine) (w : LKWord) (compound : List AffixForm)
    (captype : CapType) : Bool :=
  let aff := e.aff
  (if aff.FORCEUCASE.isSome ∧ captype ≠ CapType.ALL ∧ captype ≠ CapType.INIT then
    e.dic.hasFlag ((compound.getLastD (AffixForm.ofWord ⟨[], captype, none⟩)).text)
      aff.FORCEUCASE false
  else false) ||
    badPairsAny e w compound

/-- `LKWord.compoundsByFlags(allowNoSuggest, depth)`
(src/lookup/lk-word.ts:613-664), with structural fuel standing in for
the string-shrinking recursion (each recursive call is on a strict
suffix whenever `COMPOUNDMIN ≥ 1`; the theorems quantify over all
fuel). -/
def compoundsByFlagsList (e : Engine) : Nat → LKWord → Bool → Nat →
    List (List AffixForm)
  | 0, _, _, _ => []
  | fuel + 1, w, aNS, depth =>
    let aff := e.aff
    let forbiddenFlags : Flags :=
      match aff.COMPOUNDFORBIDFLAG with | some f => [f] | none => []
    let permitFlags : Flags :=
      match aff.COMPOUNDPERMITFLAG with | some f => [f] | none => []
    let endPart :=
      if depth ≠ 0 then
        (affixFormsList e (w.shift (some CompoundPos.END)) aNS false
            ⟨permitFlags, [], forbiddenFlags⟩).map (fun form => [form])
      else []
    if w.word.length < aff.COMPOUNDMIN * 2 then endPart
    else if ((match aff.COMPOUNDWORDMAX with
             | some m => decide (depth > m)
             | none => false) = true) then endPart
    else
      let compoundpos :=
        if depth ≠ 0 then CompoundPos.MIDDLE else CompoundPos.BEGIN
      let prefixFlags : Flags :=
        if compoundpos = CompoundPos.BEGIN then [] else permitFlags
      endPart ++
        (List.range' aff.COMPOUNDMIN
            (w.word.length - aff.COMPOUNDMIN + 1 - aff.COMPOUNDMIN)).flatMap
          (fun pos =>
            let beg := { w.sliceTo pos with pos := some compoundpos }
            let rest := { w.sliceFrom pos with pos := some compoundpos }
            let flags : LKFlags := ⟨prefixFlags, permitFlags, forbiddenFlags⟩
            (affixFormsList e beg aNS false flags).flatMap (fun form =>
              (compoundsByFlagsList e fuel rest aNS (depth + 1)).map
                (fun part => form :: part)) ++
              (if aff.SIMPLIFIEDTRIPLE ∧ beg.at (-1) = rest.at 0 then
                (affixFormsList e (beg.addC (beg.at (-1))) aNS false flags).flatMap
                  (fun form =>
                    (compoundsByFlagsList e fuel rest aNS (depth + 1)).map
                      (fun part =>
                        form.replaceF (some beg.word) none none none none none none ::
                          part))
              else []))

/-- `LKWord.compoundsByRules(prev, rules)`
(src/lookup/lk-word.ts:670-702), with structural fuel as above. -/
def compoundsByRulesList (e : Engine) : Nat → LKWord → List Word →
    List CompoundRule → List (List AffixForm)
  | 0, _, _, _ => []
  | fuel + 1, w, prev, rules =>
    let aff := e.aff
    let base :=
      if ¬ prev.isEmpty then
        (e.dic.homonyms w.word false).flatMap (fun homonym =>
          let parts := prev ++ [homonym]
          let flagSets := wordFlagSets parts
          if rules.any (fun rule => rule.matchR flagSets false) then
            [[AffixForm.ofWord w]]
          else [])
      else []
    if w.word.length < aff.COMPOUNDMIN * 2 then base
    else if ((match aff.COMPOUNDWORDMAX with
             | some m => decide (prev.length ≥ m)
             | none => false) = true) then base
    else
      base ++
        (List.range' aff.COMPOUNDMIN
            (w.word.length - aff.COMPOUNDMIN + 1 - aff.COMPOUNDMIN)).flatMap
          (fun pos =>
            let beg := w.sliceTo pos
            (e.dic.homonyms beg.word false).flatMap (fun homonym =>
              let parts := prev ++ [homonym]
              let flagSets := wordFlagSets parts
              let compoundRules := rules.filter (fun rule => rule.matchR flagSets true)
              if ¬ compoundRules.isEmpty then
                (compoundsByRulesList e fuel (w.sliceFrom pos) parts
                    compoundRules).map (fun rest => AffixForm.ofWord beg :: rest)
              else []))

/-- `LKWord.compoundForms(allowNoSuggest)`
(src/lookup/lk-word.ts:584-608): nothing if the word itself matches a
FORBIDDENWORD affix form; otherwise the flag-based and rule-based
compounds that are not bad. -/
def compoundFormsList (e : Engine) (w : LKWord) (aNS : Bool) :
    List (List AffixForm) :=
  let pre :=
    match e.aff.FORBIDDENWORD with
    | some fw =>
      (affixFormsList e w true true LKFlags.empty).any (fun c => c.flagsF.contains fw)
    | none => false
  if pre then []
  else
    let fuel := w.word.length + 1
    (if e.aff.COMPOUNDBEGIN.isSome ∨ e.aff.COMPOUNDFLAG.isSome then
      (compoundsByFlagsList e fuel w aNS 0).filter
        (fun c => ¬ isBadCompoundB e w c w.type)
    else []) ++
      (if ¬ e.aff.COMPOUNDRULE.isEmpty then
        (compoundsByRulesList e fuel w [] e.aff.COMPOUNDRULE).filter
          (fun c => ¬ isBadCompoundB e w c w.type)
      else [])

end CompoundEngine

section LookupLayer

/-- `breakWord(aff, text, depth)` (src/lookup/decompose.ts:26-38): the
unbroken word first, then, for each BREAK pattern match, the splits of
the remainder. The source recursion is capped at depth 10; here the fuel
counts down from 11 (`fuel = 11 - depth`), so fuel 0 is the
depth-exceeded case. -/
def breakWordList (aff : Aff) : Nat → Str → List (List Str)
  | 0, _ => []
  | fuel + 1, text =>
    [[text].filter (fun s => ¬ s.isEmpty)] ++
      aff.BREAK.flatMap (fun pat =>
        (pat.matches text).flatMap (fun m =>
          let start := text.take m.1
          let rest := text.drop (m.1 + m.2)
          (breakWordList aff fuel rest).map (fun breaking =>
            (start :: breaking).filter (fun s => ¬ s.isEmpty))))

/-- A form yielded by `Lookup.forms`: an `AffixForm` or a
`CompoundForm`. -/
inductive WordFormS where
  | af (f : AffixForm)
  | cf (c : List AffixForm)
deriving DecidableEq, Repr

/-- `Lookup.forms(word, { caps, allowNoSuggest, affixForms,
compoundForms })` (src/lookup/index.ts:120-160). -/
def formsList (e : Engine) (word : Str) (caps aNS affixFormsB compoundFormsB : Bool) :
    List WordFormS :=
  let cv : CapType × List Str :=
    if caps then casingVariants word else (casingGuess word, [word])
  let captype := cv.1
  let variants := cv.2
  let lkword : LKWord := ⟨word, captype, none⟩
  variants.flatMap (fun variant =>
    let w := lkword.toW variant
    (if affixFormsB then
      (affixFormsList e w aNS false LKFlags.empty).filterMap (fun form =>
        if ((match form.inDictionary with
            | some d =>
              decide (captype = CapType.ALL) && includesOpt e.aff.KEEPCASE form.flagsF &&
                e.aff.isSharps d.stem && e.aff.isSharps lkword.word
            | none => false) = true) then none
        else some (WordFormS.af form))
    else []) ++
      (if compoundFormsB then (compoundFormsList e w aNS).map WordFormS.cf else []))

/-- `Lookup.correct(word, lkc)` (src/lookup/index.ts:171-173); the
`affixForms`/`compoundForms` options default to true when absent. -/
def correctB (e : Engine) (word : Str) (caps aNS : Bool)
    (affixFormsO compoundFormsO : Option Bool) : Bool :=
  ¬ (formsList e word caps aNS (affixFormsO.getD true) (compoundFormsO.getD true)).isEmpty

/-- `Lookup.isWarn(stem)` (src/lookup/index.ts:216-218). -/
def isWarnB (e : Engine) (stem : Str) : Bool :=
  e.dic.hasFlag stem e.aff.WARN true

/-- `Lookup.isForbidden(stem)` (src/lookup/index.ts:227-232): all
homonyms carry FORBIDDENWORD, or FORBIDWARN together with all homonyms
carrying WARN. -/
def isForbiddenB (e : Engine) (stem : Str) : Bool :=
  e.dic.hasFlag stem e.aff.FORBIDDENWORD true ||
    (e.aff.FORBIDWARN && e.dic.hasFlag stem e.aff.WARN true)

/-- The result record of `Lookup.check` (src/lookup/index.ts:10-24). -/
structure LookupResult where
  correct : Bool
  forbidden : Bool
  warn : Bool
deriving DecidableEq, Repr

/-- `Lookup.check(word, caps = true, allowNoSuggest = true)`
(src/lookup/index.ts:86-109): forbidden words short-circuit to
incorrect; then ICONV, IGNORE stripping, the numeric test, and the BREAK
splits each of whose pieces must be correct. -/
def checkB (e : Engine) (word : Str) : LookupResult :=
  let forbidden := isForbiddenB e word
  let warn := isWarnB e word
  if forbidden then ⟨false, forbidden, warn⟩
  else
    let word := match e.aff.ICONV with
      | some t => t.matchS word
      | none => word
    let word := match e.aff.IGNORE with
      | some chars => chars.foldl (fun w ch => replaceAllStr w [ch] []) word
      | none => word
    if isNumberStr word then ⟨true, forbidden, warn⟩
    else if (breakWordList e.aff 11 word).any (fun words =>
        words.all (fun piece => correctB e piece true true none none)) then
      ⟨true, forbidden, warn⟩
    else ⟨false, forbidden, warn⟩

end LookupLayer

section SuggestLayer

/-- `constants.ts` `SuggestionKind` (file not under `src/`; Modelled from
the spec: the kinds used by the suggester). -/
inductive SuggestionKind where
  | UPPERCASE
  | REPLCHARS
  | SPACEWORD
  | MAPCHARS
  | SWAPCHAR
  | LONGSWAPCHAR
  | BADCHARKEY
  | EXTRACHAR
  | FORGOTCHAR
  | MOVECHAR
  | BADCHAR
  | DOUBLETWOCHARS
  | TWOWORDS
  | CASE
  | FORCEUCASE
  | DASHES
  | NGRAM
  | PHONET
deriving DecidableEq, Repr

/-- `src/suggest/suggestion.ts` `Suggestion` (src/unnamed/part_001). -/
structure Suggestion where
  text : Str
  kind : SuggestionKind
deriving DecidableEq, Repr

/-- `Suggestion.replace(text)` (src/unnamed/part_001:20-22). -/
def Suggestion.replaceS (s : Suggestion) (text : Str) : Suggestion :=
  ⟨text, s.kind⟩

/-- A raw permutation output: a `Suggestion` or a `MultiWordSuggestion`
(src/unnamed/part_001:29-51). -/
inductive PermItem where
  | sug (s : Suggestion)
  | multi (words : List Str) (kind : SuggestionKind) (allowDash : Bool)
deriving DecidableEq, Repr

/-- Join words with a separator character
(`MultiWordSuggestion.stringify`). -/
def joinWith (sep : Char) (ws : List Str) : Str :=
  match ws with
  | [] => []
  | w :: rest => rest.foldl (fun acc x => acc ++ sep :: x) w

/-- Modelled from the spec: `constants.ts` `GOOD_EDITS` — the edit kinds
whose discovery suppresses the later suggestion stages (the spec names
UPPERCASE, REPLCHARS, MAPCHARS as compound-suppressing and SPACEWORD as
terminating). -/
def goodEdits : List SuggestionKind :=
  [.UPPERCASE, .REPLCHARS, .MAPCHARS, .SPACEWORD]

/-- Modelled from the spec: `constants.ts` `MAX_SUGGESTIONS`. -/
def MAX_SUGGESTIONS : Nat := 15

/-- Modelled from the spec: `constants.ts` `MAX_PHONET_SUGGESTIONS`. -/
def MAX_PHONET_SUGGESTIONS : Nat := 2

/-- Modelled from the spec: `constants.ts` `NGRAM_MAX_ROOTS`. -/
def NGRAM_MAX_ROOTS : Nat := 100

/-- Modelled from the spec: `constants.ts` `NGRAM_MAX_GUESSES`. -/
def NGRAM_MAX_GUESSES : Nat := 200

/-- `Suggest` constructor (src/suggest/ngram.ts:198-200): the flags that
make a word unsuitable as a standalone suggestion root. -/
def badFlagsList (aff : Aff) : Flags :=
  [aff.FORBIDDENWORD, aff.NOSUGGEST, aff.ONLYINCOMPOUND].filterMap id

/-- `Suggest` constructor (src/suggest/ngram.ts:202-204): the dictionary
words whose flag set is disjoint from the bad flags (the `ngramWords`
set). -/
def ngramWordsList (e : Engine) : List Word :=
  e.dic.words.filter (fun word =>
    match word.flags? with
    | none => true
    | some fl => (intersectF fl (badFlagsList e.aff)).isEmpty)

/-- `Suggest` constructor (src/suggest/ngram.ts:207): whether dash-joined
multiword suggestions are produced. -/
def suggestDashes (e : Engine) : Bool :=
  e.aff.TRY.contains '-' || e.aff.TRY.contains 'a'

/-- `Suggest.correct(word, compounds)` (src/suggest/ngram.ts:484-491):
caps and NOSUGGEST disabled; `affixForms: !compounds`, `compoundForms:
compounds` (an absent `compounds` leaves both at their defaults). -/
def correctS (e : Engine) (word : Str) (compounds : Option Bool) : Bool :=
  correctB e word false false
    (some (match compounds with | none => true | some b => !b)) compounds

/-- `Suggest.permutations(word)` (src/suggest/ngram.ts:437-476). -/
def permutationsList (e : Engine) (word : Str) : List PermItem :=
  let aff := e.aff
  PermItem.sug ⟨uppercaseStr word, .UPPERCASE⟩ ::
    ((replcharsList word aff.REP).flatMap (fun r =>
      match r with
      | .one s => [PermItem.sug ⟨s, .REPLCHARS⟩]
      | .pair ws =>
        [PermItem.sug ⟨joinWith ' ' ws, .REPLCHARS⟩,
          PermItem.multi ws .REPLCHARS false]) ++
    (twowordsList word).flatMap (fun ws =>
      PermItem.sug ⟨joinWith ' ' ws, .SPACEWORD⟩ ::
        (if suggestDashes e then [PermItem.sug ⟨joinWith '-' ws, .SPACEWORD⟩]
        else [])) ++
    (mapcharsList word aff.MAP).map (fun s => PermItem.sug ⟨s, .MAPCHARS⟩) ++
    (swapcharList word).map (fun s => PermItem.sug ⟨s, .SWAPCHAR⟩) ++
    (longswapcharList word).map (fun s => PermItem.sug ⟨s, .LONGSWAPCHAR⟩) ++
    (badcharkeyList word aff.KEY).map (fun s => PermItem.sug ⟨s, .BADCHARKEY⟩) ++
    (extracharList word).map (fun s => PermItem.sug ⟨s, .EXTRACHAR⟩) ++
    (forgotcharList word aff.TRY).map (fun s => PermItem.sug ⟨s, .FORGOTCHAR⟩) ++
    (movecharList word).map (fun s => PermItem.sug ⟨s, .MOVECHAR⟩) ++
    (badcharList word aff.TRY).map (fun s => PermItem.sug ⟨s, .BADCHAR⟩) ++
    (doubletwocharsList word).map (fun s => PermItem.sug ⟨s, .DOUBLETWOCHARS⟩) ++
    (if ¬ aff.NOSPLITSUGS then
      (twowordsList word).map (fun ws => PermItem.multi ws .TWOWORDS (suggestDashes e))
    else []))

/-- `Suggest.filter(suggestions, compounds)`
(src/suggest/ngram.ts:356-370): multiword suggestions whose words are
all correct are stringified (and dash-joined when allowed); single
suggestions are kept when correct. -/
def filterStage (e : Engine) (compounds : Option Bool) (items : List PermItem) :
    List Suggestion :=
  items.flatMap (fun it =>
    match it with
    | .multi ws kind allowDash =>
      if ws.all (fun w => correctS e w compounds) then
        ⟨joinWith ' ' ws, kind⟩ ::
          (if allowDash then [(⟨joinWith '-' ws, kind⟩ : Suggestion)] else [])
      else []
    | .sug s => if correctS e s.text compounds then [s] else [])

/-- The text-adjustment block at the head of `Suggest.handle`
(src/suggest/ngram.ts:393-410): case coercion (reverted when the
coerced form is forbidden) and the HUH/HUHINIT space fix. -/
def handleTextAdjust (e : Engine) (word : Str) (captype : CapType)
    (suggestion : Suggestion) : Str :=
  let text := suggestion.text
  if ¬ e.dic.hasFlag text e.aff.KEEPCASE false ∨ e.aff.isSharps text then
    let t := casingCoerce text captype
    let t := if t ≠ suggestion.text ∧ isForbiddenB e t then suggestion.text else t
    if captype = CapType.HUH ∨ captype = CapType.HUHINIT then
      match t.findIdx? (fun c => c = ' ') with
      | some pos =>
        match charAt t ((pos : Int) + 1), charAt word pos with
        | some a, some b =>
          if a ≠ b ∧ a.toUpper = b then
            t.take (pos + 1) ++ b :: word.drop (pos + 2)
          else t
        | _, _ => t
      | none => t
    else t
  else text

/-- `Suggest.handle(word, captype, handled, suggestion, checkInclusion)`
(src/suggest/ngram.ts:386-428, continued): rejection of forbidden
candidates, OCONV, and de-duplication against the handled set. Returns
the accepted suggestion (if any) and the updated handled set. -/
def handleFn (e : Engine) (word : Str) (captype : CapType) (handled : List Str)
    (suggestion : Suggestion) (checkInclusion : Bool) :
    Option Suggestion × List Str :=
  let text := handleTextAdjust e word captype suggestion
  if isForbiddenB e text then (none, handled)
  else
    let text := match e.aff.OCONV with
      | some conv => conv.matchS text
      | none => text
    if handled.contains text then (none, handled)
    else if checkInclusion ∧
        handled.any (fun prev => containsStr (lowercaseStr text) (lowercaseStr prev)) then
      (none, handled)
    else (some (suggestion.replaceS text), handled ++ [text])

/-- The `map(handle).filter(defined).take(limit)` pipeline of
`Suggest.edits` (src/suggest/ngram.ts:337-342), threading the handled
set; consumption stops at the limit as the lazy source does. -/
def editsGo (e : Engine) (word : Str) (captype : CapType) (limit : Nat) :
    List Suggestion → List Str → List Suggestion × List Str
  | [], handled => ([], handled)
  | s :: rest, handled =>
    if limit = 0 then ([], handled)
    else
      match handleFn e word captype handled s false with
      | (some out, handled') =>
        let r := editsGo e word captype (limit - 1) rest handled'
        (out :: r.1, r.2)
      | (none, handled') => editsGo e word captype limit rest handled'

/-- `Suggest.edits(word, handle, limit, compounds)`
(src/suggest/ngram.ts:337-342). -/
def editsList (e : Engine) (origWord : Str) (captype : CapType) (handled : List Str)
    (word : Str) (limit : Nat) (compounds : Option Bool) :
    List Suggestion × List Str :=
  editsGo e origWord captype limit
    (filterStage e compounds (permutationsList e word)) handled

end SuggestLayer

section Scores

/-- All `n`-grams of a string. -/
def ngramsOf (n : Nat) (s : Str) : List Str :=
  (List.range (s.length + 1 - n)).map (fun i => (s.drop i).take n)

/-- Modelled from the spec: `suggest/scores.ts` — count of `n`-grams of
`a` that occur in `b`. -/
def ngramCount (n : Nat) (a b : Str) : Int :=
  ((ngramsOf n a).filter (fun g => containsStr b g)).length

/-- Length of the common prefix of two strings. -/
def leftCommonSubstring (a b : Str) : Int :=
  ((a.zip b).takeWhile (fun p => p.1 = p.2)).length

/-- Modelled from the spec: `suggest/scores.ts` `rootScore(miss, stem)` —
3-gram overlap count plus a left-common-substring bonus. -/
def rootScore (miss stem : Str) : Int :=
  ngramCount 3 miss stem + leftCommonSubstring miss stem

/-- Modelled from the spec: `suggest/scores.ts` `roughAffixScore(miss,
form)` — the sum of the 1/2/3/4-gram counts. -/
def roughAffixScore (miss form : Str) : Int :=
  ngramCount 1 miss form + ngramCount 2 miss form +
    ngramCount 3 miss form + ngramCount 4 miss form

/-- Longest common subsequence length (fuel-bounded). -/
def lcsLenAux : Nat → Str → Str → Nat
  | 0, _, _ => 0
  | _ + 1, [], _ => 0
  | _ + 1, _, [] => 0
  | fuel + 1, a :: as', b :: bs =>
    if a = b then lcsLenAux fuel as' bs + 1
    else max (lcsLenAux fuel (a :: as') bs) (lcsLenAux fuel as' (b :: bs))

/-- Longest common subsequence length. -/
def lcsLen (a b : Str) : Nat := lcsLenAux (a.length + b.length + 1) a b

/-- Modelled from the spec: `suggest/scores.ts` `preciseAffixScore(miss,
candidate, factor, prior, hasPhonetic)` — an LCS-based score with
common-character-position and bigram-overlap components, bucketed into
"very good" (> 1000), ordinary, and "very bad" (< -100). -/
def preciseAffixScore (miss cand : Str) (factor : Int) (prior : Int)
    (hasPhonetic : Bool) : Int :=
  let lcs : Int := lcsLen miss cand
  let commonPos : Int := ((miss.zip cand).filter (fun p => p.1 = p.2)).length
  let bigrams := ngramCount 2 miss cand
  if lcs = miss.length ∧ lcs = cand.length then 2000 + prior
  else
    let base := 2 * lcs + commonPos + bigrams - factor * 2 +
      (if hasPhonetic then -1 else 0)
    if base < prior - (miss.length : Int) * 2 then -200 else base

/-- Modelled from the spec: `suggest/scores.ts` `scoreThreshold(miss)` —
a coarse per-word gate on rough scores. -/
def scoreThreshold (miss : Str) : Int := (miss.length : Int) / 4

/-- Modelled from the spec: `suggest/scores.ts` `ScoresList.finish` —
the top `n` entries sorted by descending score. -/
def scoresFinish (n : Nat) (l : List (Int × Str × Str)) : List (Int × Str × Str) :=
  (l.mergeSort (fun a b => a.1 ≥ b.1)).take n

/-- Top `n` scored words by descending score. -/
def scoresFinishW (n : Nat) (l : List (Int × Word)) : List (Int × Word) :=
  (l.mergeSort (fun a b => a.1 ≥ b.1)).take n

end Scores

section NgramPhonet

/-- Relevant suffixes of a word (the precomputation of the `Word`
constructor, src/dic/word.ts:106-111: the suffix table entries whose
class flag is in the word's flag set and whose condition matches the
stem). -/
def wordSuffixes (aff : Aff) (w : Word) : List Affix :=
  aff.SFX.filter (fun s =>
    (w.flags?.getD []).contains s.flag && condMatches s.condition true w.stem)

/-- Relevant prefixes of a word (src/dic/word.ts:99-104). -/
def wordPrefixes (aff : Aff) (w : Word) : List Affix :=
  aff.PFX.filter (fun p =>
    (w.flags?.getD []).contains p.flag && condMatches p.condition false w.stem)

/-- `Word.forms(similarTo)` (src/dic/word.ts:123-164): the stem plus its
single-suffix, cross-product and single-prefix surface permutations,
restricted to affixes compatible with `similarTo`. -/
def Word.formsList (aff : Aff) (w : Word) (similarTo : Str) : List Str :=
  let suffixes := (wordSuffixes aff w).filter (fun s => s.add.isSuffixOf similarTo)
  let prefixes := (wordPrefixes aff w).filter (fun p => p.add.isPrefixOf similarTo)
  let cross := prefixes.flatMap (fun p =>
    (suffixes.filter (fun s => s.crossproduct && p.crossproduct)).map (fun s => (p, s)))
  w.stem ::
    (suffixes.map (fun s =>
      let root := if ¬ s.strip.isEmpty then w.stem.take (w.stem.length - s.strip.length)
        else w.stem
      root ++ s.add) ++
    cross.map (fun ps =>
      let root := if ¬ ps.2.strip.isEmpty then
          (w.stem.drop ps.1.strip.length).take
            (w.stem.length - ps.1.strip.length - ps.2.strip.length)
        else w.stem.drop ps.1.strip.length
      ps.1.add ++ root ++ ps.2.add) ++
    prefixes.map (fun p => p.add ++ w.stem.drop p.strip.length))

/-- The state of `NgramSuggestionBuilder` (src/suggest/ngram.ts:17-51);
the bounded roots container is modelled as a plain list bounded at
finish. -/
structure NgramBuilder where
  misspelling : Str
  known : List Str
  maxDiff : Nat
  onlyMaxDiff : Bool
  hasPhonetic : Bool
  roots : List (Int × Word)
deriving Repr

/-- `NgramSuggestionBuilder.step(word)` (src/suggest/ngram.ts:58-70). -/
def ngramStep (b : NgramBuilder) (word : Word) : NgramBuilder :=
  if ((word.stem.length : Int) - (b.misspelling.length : Int)).natAbs > 4 then b
  else
    let score := rootScore b.misspelling word.stem
    let score := word.altSpellings.foldl
      (fun acc variant => max acc (rootScore b.misspelling variant)) score
    { b with roots := b.roots ++ [(score, word)] }

/-- `NgramSuggestionBuilder.filterGuesses(guesses)`
(src/suggest/ngram.ts:113-131). -/
def ngramFilterGuesses (onlyMaxDiff : Bool) (known : List Str) :
    List (Int × Str) → Bool → Nat → List Str
  | [], _, _ => []
  | (score, value) :: rest, seen, found =>
    if seen ∧ score ≤ 1000 then []
    else if score < -100 ∧ (found > 0 ∨ onlyMaxDiff) then []
    else
      let seen := if score > 1000 ∨ score < -100 then true else seen
      if ¬ known.any (fun word => containsStr word value) then
        value :: ngramFilterGuesses onlyMaxDiff known rest seen (found + 1)
      else ngramFilterGuesses onlyMaxDiff known rest seen found

/-- `NgramSuggestionBuilder.finish()` (src/suggest/ngram.ts:73-106). -/
def ngramFinish (aff : Aff) (b : NgramBuilder) : List Str :=
  let threshold := scoreThreshold b.misspelling
  let guesses := (scoresFinishW NGRAM_MAX_ROOTS b.roots).flatMap (fun p =>
    let root := p.2
    (root.altSpellings.filterMap (fun variant =>
      let score := roughAffixScore b.misspelling variant
      if score > threshold then some (score, lowercaseStr variant, root.stem)
      else none)) ++
    ((Word.formsList aff root b.misspelling).filterMap (fun form =>
      let score := roughAffixScore b.misspelling form
      if score > threshold then some (score, lowercaseStr form, form) else none)))
  let fact : Int := if b.maxDiff ≥ 0 then ((10 : Int) - b.maxDiff) / 5 else 1
  let rescored := (scoresFinish NGRAM_MAX_GUESSES guesses).map (fun g =>
    (preciseAffixScore b.misspelling g.2.1 fact g.1 b.hasPhonetic, g.2.2))
  ngramFilterGuesses b.onlyMaxDiff b.known
    (rescored.mergeSort (fun a b => a.1 ≥ b.1)) false 0

/-- Modelled from the spec: `suggest/phonet.ts` — the phonetic key of a
word under the PHONE table (rule rewriting over the uppercased word). -/
def phonetKey (table : List (Str × Str)) (word : Str) : Str :=
  table.foldl (fun acc p => replaceAllStr acc p.1 p.2) (uppercaseStr word)

/-- The state of `PhonetSuggestionBuilder` (Modelled from the spec:
`suggest/phonet.ts` — candidates retained by distance on phonetic
keys). -/
structure PhonetBuilder where
  misspelling : Str
  key : Str
  scores : List (Int × Str)
deriving Repr

/-- Modelled from the spec: `suggest/phonet.ts` `step`. -/
def phonetStep (table : List (Str × Str)) (b : PhonetBuilder) (word : Word) :
    PhonetBuilder :=
  if ((word.stem.length : Int) - (b.misspelling.length : Int)).natAbs > 3 then b
  else
    let k := phonetKey table word.stem
    let score : Int := 2 * leftCommonSubstring b.key k -
      (((b.key.length : Int) - (k.length : Int)).natAbs : Int)
    { b with scores := b.scores ++ [(score, word.stem)] }

/-- Modelled from the spec: `suggest/phonet.ts` `finish`. -/
def phonetFinish (b : PhonetBuilder) : List Str :=
  ((b.scores.mergeSort (fun a b => a.1 ≥ b.1)).take MAX_PHONET_SUGGESTIONS).map
    (fun p => p.2)

end NgramPhonet

section Suggestions

/-- The prefix of yielded edit suggestions up to and including the first
SPACEWORD one (on SPACEWORD the `suggestions` generator yields it and
then returns, src/suggest/ngram.ts:253-262). -/
def takeThroughSpaceword : List Suggestion → List Suggestion
  | [] => []
  | s :: rest =>
    if s.kind = SuggestionKind.SPACEWORD then [s]
    else s :: takeThroughSpaceword rest

/-- Whether an edit pass produced a SPACEWORD suggestion. -/
def hasSpaceword (l : List Suggestion) : Bool :=
  l.any (fun s => s.kind = SuggestionKind.SPACEWORD)

/-- Map a list of suggestion texts through the handler, keeping the
accepted ones and threading the handled set (the
`map(handle).filter(defined)` pipeline of the n-gram/phonetic stage,
src/suggest/ngram.ts:303-318). -/
def handleMany (e : Engine) (word : Str) (captype : CapType)
    (kind : SuggestionKind) (checkInclusion : Bool) :
    List Str → List Str → List Suggestion × List Str
  | [], handled => ([], handled)
  | t :: rest, handled =>
    match handleFn e word captype handled ⟨t, kind⟩ checkInclusion with
    | (some out, handled') =>
      let r := handleMany e word captype kind checkInclusion rest handled'
      (out :: r.1, r.2)
    | (none, handled') => handleMany e word captype kind checkInclusion rest handled'

/-- The n-gram/phonetic stage of `Suggest.suggestions`
(src/suggest/ngram.ts:294-319): both builders are stepped with every
word of the precomputed `ngramWords` set, then their outputs are capped
and passed through the handler. -/
def ngramPhonetStage (e : Engine) (word : Str) (captype : CapType)
    (handled : List Str) : List Suggestion × List Str :=
  let nb : Option NgramBuilder :=
    if e.aff.MAXNGRAMSUGS ≠ 0 then
      some ((ngramWordsList e).foldl ngramStep
        ⟨lowercaseStr word, handled.map lowercaseStr, e.aff.MAXDIFF,
          e.aff.ONLYMAXDIFF, e.aff.PHONE.isSome, []⟩)
    else none
  let pb : Option PhonetBuilder :=
    match e.aff.PHONE with
    | some table =>
      some ((ngramWordsList e).foldl (phonetStep table)
        ⟨word, phonetKey table word, []⟩)
    | none => none
  let r1 := match nb with
    | some b =>
      handleMany e word captype .NGRAM true
        ((ngramFinish e.aff b).take e.aff.MAXNGRAMSUGS) handled
    | none => ([], handled)
  let r2 := match pb with
    | some b =>
      handleMany e word captype .PHONET false
        ((phonetFinish b).take MAX_PHONET_SUGGESTIONS) r1.2
    | none => ([], r1.2)
  (r1.1 ++ r2.1, r2.2)

/-- The `for (const variant of variants)` loop of `Suggest.suggestions`
(src/suggest/ngram.ts:238-320). `sugRec` is the recursive call used by
the dash-recombination stage. Arguments: remaining variants, variant
index, handled set, the persistent `goodEditsFound` flag, and the
suggestions yielded so far. -/
def suggestionsLoop (e : Engine) (sugRec : Str → List Suggestion) (word : Str)
    (captype : CapType) :
    List Str → Nat → List Str → Bool → List Suggestion → List Suggestion
  | [], _, _, _, acc => acc
  | variant :: rest, idx, handled, good, acc =>
    let step1 :=
      if idx > 0 ∧ correctS e variant none then
        match handleFn e word captype handled ⟨variant, .CASE⟩ false with
        | (some s, h) => (acc ++ [s], h)
        | (none, h) => (acc, h)
      else (acc, handled)
    let e1 := editsList e word captype step1.2 variant MAX_SUGGESTIONS none
    let sugs1 := e1.1
    let acc1 := step1.1 ++ takeThroughSpaceword sugs1
    -- a SPACEWORD edit terminates the whole generator after being yielded
    if hasSpaceword sugs1 then acc1
    else
      let good1 := good || sugs1.any (fun s => goodEdits.contains s.kind)
      let noCompound := sugs1.any (fun s =>
        s.kind = SuggestionKind.UPPERCASE ∨ s.kind = SuggestionKind.REPLCHARS ∨
          s.kind = SuggestionKind.MAPCHARS)
      let e2 :=
        if ¬ noCompound then
          editsList e word captype e1.2 word e.aff.MAXCPDSUGS (some true)
        else ([], e1.2)
      let sugs2 := e2.1
      let good2 := good1 || sugs2.any (fun s => goodEdits.contains s.kind)
      let acc2 := acc1 ++ sugs2
      if good2 then acc2
      else
        let accD :=
          if word.contains '-' ∧ ¬ e2.2.any (fun h => h.contains '-') then
            let chunks := List.splitOnP (fun c => c = '-') word
            (List.range chunks.length).flatMap (fun i =>
              let chunk := chunks.getD i []
              if ¬ correctS e chunk none then
                (sugRec chunk).map (fun sug =>
                  -- source: `if (this.lookup.check(candidate))` — `check`
                  -- returns an object, which is always truthy, so no
                  -- candidate is dropped here
                  (⟨joinWith '-' (chunks.set i sug.text), .DASHES⟩ : Suggestion))
              else [])
          else []
        let acc3 := acc2 ++ accD
        let st5 :=
          if e.aff.MAXNGRAMSUGS ≠ 0 ∨ e.aff.PHONE.isSome then
            ngramPhonetStage e word captype e2.2
          else ([], e2.2)
        suggestionsLoop e sugRec word captype rest (idx + 1) st5.2 good2
          (acc3 ++ st5.1)

/-- `Suggest.suggestions(word)` (src/suggest/ngram.ts:216-321), with
structural fuel bounding the dash-recombination recursion (each
recursive call is on a chunk of the dash-split word, a strictly shorter
string). -/
def suggestionsList (e : Engine) : Nat → Str → List Suggestion
  | 0, _ => []
  | fuel + 1, word =>
    let cc := casingCorrections word
    let captype := cc.1
    let variants := cc.2
    let runLoop := fun (_ : Unit) =>
      suggestionsLoop e (suggestionsList e fuel) word captype variants 0 [] false []
    if e.aff.FORCEUCASE.isSome ∧ captype = CapType.NO then
      match (casingCapitalizeList word).find? (fun cap => correctS e cap none) with
      | some capitalized =>
        (match handleFn e word captype [] ⟨capitalized, .FORCEUCASE⟩ false with
         | (some s, _) => [s]
         | (none, _) => [])
      | none => runLoop ()
    else runLoop ()

/-- `Suggest.suggestions` at its natural fuel (the word length bounds the
depth of dash recursion). -/
def suggestionsTop (e : Engine) (word : Str) : List Suggestion :=
  suggestionsList e (word.length + 1) word

end Suggestions

section ConcreteEngines

/-- Adding one entry to an engine's dictionary. -/
def addWord (e : Engine) (w : Word) : Engine := ⟨e.aff, ⟨e.dic.words ++ [w]⟩⟩

/-- Concatenation of the `text` fields of a compound form's parts. -/
def concatTexts (c : List AffixForm) : Str := (c.map AffixForm.text).flatten

/-- Aff data with only FORBIDDENWORD configured (flag `F`). -/
def affFW : Aff := { defaultAff with FORBIDDENWORD := some "F" }

/-- A dictionary word `foo/F` (forbidden). -/
def wFooF : Word := ⟨str "foo", .NO, some ["F"], []⟩

/-- Engine: `FORBIDDENWORD F`, dictionary `foo/F`. -/
def eFW : Engine := ⟨affFW, ⟨[wFooF]⟩⟩

/-- Aff data with the three position-specific compound flags `B`, `M`,
`E` and no COMPOUNDFLAG. -/
def affPos : Aff :=
  { defaultAff with
    COMPOUNDBEGIN := some "B", COMPOUNDMIDDLE := some "M", COMPOUNDEND := some "E" }

/-- Engine for the position-flag validators (empty dictionary: the forms
below carry their dictionary word directly). -/
def ePos : Engine := ⟨affPos, ⟨[]⟩⟩

/-- A dictionary word carrying only COMPOUNDBEGIN's flag `B`. -/
def wFlagB : Word := ⟨str "x", .NO, some ["B"], []⟩

/-- A dictionary word carrying only COMPOUNDEND's flag `E`. -/
def wFlagE : Word := ⟨str "x", .NO, some ["E"], []⟩

/-- The identity affix form over `wFlagB`. -/
def formFlagB : AffixForm := ⟨str "x", str "x", none, none, none, none, some wFlagB⟩

/-- The identity affix form over `wFlagE`. -/
def formFlagE : AffixForm := ⟨str "x", str "x", none, none, none, none, some wFlagE⟩

/-- The word `x` at compound position BEGIN. -/
def lkwBegin : LKWord := ⟨str "x", .NO, some .BEGIN⟩

/-- Aff data of scenario S4: `COMPOUNDFLAG C`, `COMPOUNDMIN 3`. -/
def affCpd : Aff := { defaultAff with COMPOUNDFLAG := some "C", COMPOUNDMIN := 3 }

/-- Dictionary word `foo/C`. -/
def wFooC : Word := ⟨str "foo", .NO, some ["C"], []⟩

/-- Dictionary word `bar/C`. -/
def wBarC : Word := ⟨str "bar", .NO, some ["C"], []⟩

/-- Engine: `COMPOUNDFLAG C`, dictionary `foo/C`, `bar/C`. -/
def eCpd : Engine := ⟨affCpd, ⟨[wFooC, wBarC]⟩⟩

/-- A flag-less dictionary entry whose stem is the two-word phrase
`foo bar`. -/
def wFooBar : Word := ⟨str "foo bar", .NO, none, []⟩

/-- `eCpd` with the flag-less `foo bar` entry added. -/
def eCpdPlus : Engine := addWord eCpd wFooBar

/-- The LKWord for checking `foobar`. -/
def lkwFoobar : LKWord := ⟨str "foobar", .NO, none⟩

/-- The accepted BEGIN part of the compound `foobar`. -/
def formFooCpd : AffixForm :=
  ⟨str "foo", str "foo", none, none, none, none, some wFooC⟩

/-- The accepted END part of the compound `foobar`. -/
def formBarCpd : AffixForm :=
  ⟨str "bar", str "bar", none, none, none, none, some wBarC⟩

/-- Aff data for the suggester counterexample: `FORBIDDENWORD F`, no
n-gram/phonetic stage. -/
def affSug : Aff :=
  { defaultAff with FORBIDDENWORD := some "F", MAXNGRAMSUGS := 0 }

/-- Dictionary word `oy/F` (a forbidden homonym). -/
def wOyF : Word := ⟨str "oy", .NO, some ["F"], []⟩

/-- Dictionary word `oy` (a non-forbidden homonym of the same stem). -/
def wOy : Word := ⟨str "oy", .NO, none, []⟩

/-- Engine: `FORBIDDENWORD F`, dictionary `oy/F` and `oy`. -/
def eSug : Engine := ⟨affSug, ⟨[wOyF, wOy]⟩⟩

/-- Aff data with NEEDAFFIX `n`. -/
def affNA : Aff := { defaultAff with NEEDAFFIX := some "n" }

/-- A suffix entry carrying no auxiliary flags (so not NEEDAFFIX). -/
def sufPlain : Affix := ⟨"S", false, [], str "s", [], []⟩

/-- A form `foos = foo + s` whose root `foo/n` carries NEEDAFFIX but
whose suffix does not. -/
def formNA : AffixForm :=
  ⟨str "foos", str "foo", none, some sufPlain, none, none,
    some ⟨str "foo", .NO, some ["n"], []⟩⟩

/-- Aff data with all three n-gram-excluded flags configured. -/
def affNG : Aff :=
  { defaultAff with
    FORBIDDENWORD := some "F", NOSUGGEST := some "N", ONLYINCOMPOUND := some "O" }

/-- A flag-less dictionary word. -/
def wAbc : Word := ⟨str "abc", .NO, none, []⟩

/-- A forbidden dictionary word. -/
def wXyzF : Word := ⟨str "xyz", .NO, some ["F"], []⟩

/-- Engine for the `ngramWords` filter. -/
def eNG : Engine := ⟨affNG, ⟨[wAbc, wXyzF]⟩⟩

end ConcreteEngines

section ClaimC1

/-- C1 (counterexample): the word `foo` spellchecks (it has an accepting
affix form, so `Lookup.correct` is true) and is forbidden, yet `check`
returns `correct = false` together with `forbidden = true` — not
`correct = true` as the claim states. -/
theorem claim_C1_counterexample :
    correctB eFW (str "foo") true true none none = true ∧
    isForbiddenB eFW (str "foo") = true ∧
    checkB eFW (str "foo") = ⟨false, true, false⟩ := by decide

/-- C1 (amended): the fields of `check` are not independent in the code:
whenever `isForbidden` holds, `check` short-circuits to
`correct = false, forbidden = true` (src/lookup/index.ts:87-90), with
`warn` still reported independently. -/
theorem claim_C1_theorem (e : Engine) (word : Str)
    (h : isForbiddenB e word = true) :
    checkB e word = ⟨false, true, isWarnB e word⟩ := by
  unfold checkB
  rw [h]
  simp

/-- C1 (witness): the amended theorem at the concrete forbidden word. -/
theorem claim_C1_witness :
    isForbiddenB eFW (str "foo") = true ∧
    checkB eFW (str "foo") = ⟨false, true, isWarnB eFW (str "foo")⟩ :=
  ⟨by decide, claim_C1_theorem eFW (str "foo") (by decide)⟩

end ClaimC1

section ClaimC2

/-- C2: at compound position BEGIN, with no COMPOUNDFLAG, the
`AffixForm.valid` validator (src/lookup/forms.ts:317-333, fall-through
`switch`) rejects a form carrying COMPOUNDBEGIN and accepts a form
carrying only COMPOUNDEND — the exact opposite of the claim — while the
parallel `validForm` (src/unnamed/part_000:117-130, independent
`return`s) behaves as the claim states. -/
theorem claim_C2_theorem :
    includesOpt ePos.aff.COMPOUNDBEGIN formFlagB.flagsF = true ∧
    formFlagB.validB ePos lkwBegin true = false ∧
    validFormB ePos formFlagB lkwBegin true = true ∧
    includesOpt ePos.aff.COMPOUNDBEGIN formFlagE.flagsF = false ∧
    formFlagE.validB ePos lkwBegin true = true ∧
    validFormB ePos formFlagE lkwBegin true = false := by decide

end ClaimC2

section ClaimC3

/-- C3 (counterexample): for the misspelling `yo`, the suggester emits
`oy`, whose dictionary homonym `oy/F` carries FORBIDDENWORD — so a
suggestion may have the FORBIDDENWORD flag in some homonym. The handler
only rejects a suggestion when every homonym is forbidden
(`isForbidden` queries `hasFlag` with `all = true`). -/
theorem claim_C3_counterexample :
    suggestionsTop eSug (str "yo") = [⟨str "oy", .SWAPCHAR⟩] ∧
    wOyF ∈ eSug.dic.homonyms (str "oy") false ∧
    eSug.aff.FORBIDDENWORD = some "F" ∧
    wOyF.has "F" = true := by decide

/-- C3 (amended): every suggestion accepted by the suggestion handler
(src/suggest/ngram.ts:386-428) satisfies `¬ isForbidden`, i.e. not all
of its dictionary homonyms carry FORBIDDENWORD (stated for engines
without OCONV, which is applied after the forbidden test). -/
theorem claim_C3_theorem (e : Engine) (word : Str) (captype : CapType)
    (handled : List Str) (sug : Suggestion) (ci : Bool) (out : Suggestion)
    (hconv : e.aff.OCONV = none)
    (hout : (handleFn e word captype handled sug ci).1 = some out) :
    isForbiddenB e out.text = false := by
  unfold handleFn at hout
  rw [hconv] at hout
  dsimp only at hout
  split at hout
  · simp at hout
  · split at hout
    · simp at hout
    · split at hout
      · simp at hout
      · rename_i hforb _ _
        obtain rfl : out = sug.replaceS _ := by
          simpa using hout.symm
        simpa [Suggestion.replaceS] using hforb

/-- C3 (witness): the amended theorem at the concrete accepted
suggestion `oy`. -/
theorem claim_C3_witness :
    (handleFn eSug (str "yo") .NO [] ⟨str "oy", .SWAPCHAR⟩ false).1 =
      some ⟨str "oy", .SWAPCHAR⟩ ∧
    isForbiddenB eSug (str "oy") = false :=
  ⟨by decide,
    claim_C3_theorem eSug (str "yo") .NO [] ⟨str "oy", .SWAPCHAR⟩ false
      ⟨str "oy", .SWAPCHAR⟩ rfl (by decide)⟩

end ClaimC3

section ClaimC4

/-- C4: the NEEDAFFIX check of `AffixForm.valid`
(src/lookup/forms.ts:298-306, the `needAffixRejected` condition used by
`AffixForm.validB`): a form with at least one affix is rejected iff
every one of its affixes carries NEEDAFFIX (so one affix without
NEEDAFFIX rescues a NEEDAFFIX root), and a form without affixes is
rejected iff its root carries NEEDAFFIX. -/
theorem claim_C4_theorem (aff : Aff) (form : AffixForm) (na : Flag)
    (rootFlags : Flags) (hna : aff.NEEDAFFIX = some na) :
    (form.hasAffixes = true →
      (needAffixRejected aff form rootFlags = true ↔
        ∀ a ∈ form.affixesList, a.has na = true)) ∧
    (form.hasAffixes = true → ∀ a ∈ form.affixesList, a.has na = false →
      needAffixRejected aff form rootFlags = false) ∧
    (form.hasAffixes = false →
      (needAffixRejected aff form rootFlags = true ↔
        rootFlags.contains na = true)) := by
  unfold needAffixRejected
  rw [hna]
  refine ⟨fun h => ?_, fun h a ha hfa => ?_, fun h => ?_⟩
  · rw [h]
    simp [List.all_eq_true]
  · rw [h]
    simp only [if_true, List.all_eq_false]
    exact ⟨a, ha, by simp [hfa]⟩
  · rw [h]
    simp

/-- C4 (witness): the root `foo/n` carries NEEDAFFIX, the suffix does
not, so the affixed form is not rejected by the NEEDAFFIX check. -/
theorem claim_C4_witness :
    affNA.NEEDAFFIX = some "n" ∧ formNA.hasAffixes = true ∧
    sufPlain ∈ formNA.affixesList ∧ sufPlain.has "n" = false ∧
    needAffixRejected affNA formNA [("n" : Flag)] = false :=
  ⟨rfl, by decide, by decide, by decide,
    (claim_C4_theorem affNA formNA "n" ["n"] rfl).2.1 (by decide) sufPlain
      (by decide) (by decide)⟩

end ClaimC4

section ClaimC6

/-- C6: `AffixForm.flags` (src/lookup/forms.ts:258-263) is the union of
the dictionary word's flags, the outer prefix's auxiliary flags (when
present) and the outer suffix's auxiliary flags (when present); the
inner `prefix2`/`suffix2` never contribute (replacing them leaves the
flag set unchanged). -/
theorem claim_C6_theorem (form : AffixForm) (p2 s2 : Option Affix) (f : Flag) :
    (f ∈ form.flagsF ↔
      (f ∈ (match form.inDictionary with
            | some w => w.flags?.getD []
            | none => ([] : Flags)) ∨
        (∃ p, form.pfx = some p ∧ f ∈ p.flags) ∨
        (∃ s, form.sfx = some s ∧ f ∈ s.flags))) ∧
    ({ form with pfx2 := p2, sfx2 := s2 } : AffixForm).flagsF = form.flagsF := by
  constructor
  · cases hd : form.inDictionary <;> cases hp : form.pfx <;> cases hs : form.sfx <;>
      simp [AffixForm.flagsF, hd, hp, hs, List.mem_append, or_assoc]
  · rfl

end ClaimC6

section ClaimC7

/-- C7: at the failing input (`abc`, index `-1`) the first copy of
`LKWord.at` (src/lookup/lk-word.ts:96-99, `length - n`) reads past the
end and yields `undefined`, while the second copy
(src/lookup/lk-word.ts:488-491, `length + n`) returns the character at
index `length + n` — the last character, as the claim states. -/
theorem claim_C7_theorem :
    (⟨str "abc", .NO, none⟩ : LKWord).atOld (-1) = none ∧
    (⟨str "abc", .NO, none⟩ : LKWord).at (-1) = some 'c' ∧
    ((-3 : Int) ≤ -1 ∧ (-1 : Int) < 0) := by decide

end ClaimC7

section ClaimC9

/-- C9: for every aff data and non-empty text, the first split yielded
by `breakWord` (src/lookup/decompose.ts:26-38) is the one-element
sequence holding the unbroken word (stated for every positive fuel; the
top-level call has fuel 11, i.e. depth 0). -/
theorem claim_C9_theorem (aff : Aff) (text : Str) (fuel : Nat)
    (h : text ≠ []) :
    (breakWordList aff (fuel + 1) text).head? = some [text] := by
  unfold breakWordList
  simp [h]

/-- C9 (witness): the unbroken word heads the splits of `foobar` at the
source's top-level depth. -/
theorem claim_C9_witness :
    (str "foobar" ≠ []) ∧
    (breakWordList defaultAff 11 (str "foobar")).head? = some [str "foobar"] :=
  ⟨by decide, claim_C9_theorem defaultAff (str "foobar") 10 (by decide)⟩

end ClaimC9

section ClaimC10

/-- C10: every word of the precomputed `ngramWords` set
(src/suggest/ngram.ts:198-204) carries none of the configured
FORBIDDENWORD, NOSUGGEST and ONLYINCOMPOUND flags; the n-gram and
phonetic builders are stepped exactly with the words of this set
(`ngramPhonetStage` folds both builders over `ngramWordsList`,
mirroring src/suggest/ngram.ts:298-301). -/
theorem claim_C10_theorem (e : Engine) (w : Word) (hw : w ∈ ngramWordsList e) :
    (∀ f, e.aff.FORBIDDENWORD = some f → w.has f = false) ∧
    (∀ f, e.aff.NOSUGGEST = some f → w.has f = false) ∧
    (∀ f, e.aff.ONLYINCOMPOUND = some f → w.has f = false) := by
  unfold ngramWordsList at hw
  rw [List.mem_filter] at hw
  obtain ⟨-, hpred⟩ := hw
  have key : ∀ f ∈ badFlagsList e.aff, w.has f = false := by
    intro f hf
    unfold Word.has
    cases hfl : w.flags? with
    | none => simp
    | some fl =>
      rw [hfl] at hpred
      simp only [Option.getD_some]
      rw [List.isEmpty_iff] at hpred
      unfold intersectF at hpred
      rw [List.filter_eq_nil_iff] at hpred
      by_contra hc
      rw [Bool.not_eq_false] at hc
      exact hpred f (by simpa using hc) (by simpa using hf)
  refine ⟨fun f hf => key f ?_, fun f hf => key f ?_, fun f hf => key f ?_⟩ <;>
    simp [badFlagsList, hf]

/-- C10 (witness): in the engine with all three flags configured, the
flagless word of `ngramWords` carries none of them. -/
theorem claim_C10_witness :
    wAbc ∈ ngramWordsList eNG ∧ eNG.aff.FORBIDDENWORD = some "F" ∧
    wAbc.has "F" = false ∧ wAbc.has "N" = false ∧ wAbc.has "O" = false :=
  ⟨by decide, rfl,
    (claim_C10_theorem eNG wAbc (by decide)).1 "F" rfl,
    (claim_C10_theorem eNG wAbc (by decide)).2.1 "N" rfl,
    (claim_C10_theorem eNG wAbc (by decide)).2.2 "O" rfl⟩

end ClaimC10

section ClaimC5

theorem concatTexts_cons (f : AffixForm) (rest : List AffixForm) :
    concatTexts (f :: rest) = f.text ++ concatTexts rest := rfl

theorem concatTexts_single (f : AffixForm) : concatTexts [f] = f.text := by
  simp [concatTexts]

theorem candidatesList_text (e : Engine) (w : LKWord) (aNS : Bool)
    (form : AffixForm) (homs : List Word) :
    ∀ f ∈ candidatesList e w aNS form homs, f.text = form.text := by
  intro f hf
  unfold candidatesList at hf
  rw [List.mem_filterMap] at hf
  obtain ⟨h, _, hif⟩ := hf
  dsimp only at hif
  split at hif
  · cases hif
    rfl
  · cases hif

theorem desuffixInner_text (aff : Aff) (word : Str) (flags : LKFlags) (cp : Bool) :
    ∀ f ∈ desuffixInner aff word flags cp, f.text = word := by
  intro f hf
  unfold desuffixInner at hf
  rw [List.mem_map] at hf
  obtain ⟨s, -, rfl⟩ := hf
  rfl

theorem desuffixList_text (aff : Aff) (word : Str) (flags : LKFlags) (cp : Bool) :
    ∀ f ∈ desuffixList aff word flags cp, f.text = word := by
  intro f hf
  unfold desuffixList at hf
  simp only [List.mem_flatMap, List.mem_cons, List.mem_map] at hf
  obtain ⟨s, -, hf | ⟨g, -, rfl⟩⟩ := hf
  · rw [hf]
    rfl
  · rfl

theorem deprefixList_text (aff : Aff) (word : Str) (flags : LKFlags) :
    ∀ f ∈ deprefixList aff word flags, f.text = word := by
  intro f hf
  unfold deprefixList at hf
  simp only [List.mem_flatMap, List.mem_cons] at hf
  obtain ⟨p, -, hf | hf⟩ := hf
  · rw [hf]
    rfl
  · split at hf
    · rw [List.mem_map] at hf
      obtain ⟨g, -, rfl⟩ := hf
      rfl
    · cases hf

theorem decomposeList_text (aff : Aff) (w : LKWord) (flags : LKFlags) :
    ∀ f ∈ decomposeList aff w flags, f.text = w.word := by
  intro f hf
  unfold decomposeList at hf
  dsimp only at hf
  rw [List.mem_cons] at hf
  rcases hf with rfl | hf
  · rfl
  · rw [List.mem_append] at hf
    rcases hf with hf | hf
    · split at hf
      · exact desuffixList_text aff w.word flags false f hf
      · cases hf
    · split at hf
      · simp only [List.mem_flatMap, List.mem_cons] at hf
        obtain ⟨form, hform, hf | hf⟩ := hf
        · rw [hf]
          show form.text = w.word
          exact deprefixList_text aff w.word flags form hform
        · split at hf
          · rw [List.mem_map] at hf
            obtain ⟨g, -, rfl⟩ := hf
            show form.text = w.word
            exact deprefixList_text aff w.word flags form hform
          · cases hf
      · cases hf

theorem affixFormsStep_text (e : Engine) (w : LKWord) (aNS : Bool)
    (form : AffixForm) :
    ∀ f ∈ affixFormsStep e w aNS form, f.text = form.text := by
  intro f hf
  unfold affixFormsStep at hf
  dsimp only at hf
  simp only [List.mem_append] at hf
  have hone : ∀ (c : Prop) (inst : Decidable c) (homs : List Word),
      f ∈ (if c then candidatesList e w aNS form homs else []) →
        f.text = form.text := by
    intro c inst homs hf
    split at hf
    · exact candidatesList_text e w aNS form homs f hf
    · cases hf
  rcases hf with (hf | hf) | hf
  · exact hone _ _ _ hf
  · exact hone _ _ _ hf
  · exact hone _ _ _ hf

theorem affixFormsGo_text (e : Engine) (w : LKWord) (aNS wF : Bool) :
    ∀ forms, (∀ g ∈ forms, g.text = w.word) →
      ∀ f ∈ affixFormsGo e w aNS wF forms, f.text = w.word := by
  intro forms
  induction forms with
  | nil =>
    intro _ f hf
    cases hf
  | cons form rest ih =>
    intro hall f hf
    unfold affixFormsGo at hf
    split at hf
    · cases hf
    · rw [List.mem_append] at hf
      have hform : form.text = w.word := hall form (List.mem_cons_self form rest)
      have htail : ∀ g ∈ rest, g.text = w.word := fun g hg =>
        hall g (List.mem_cons_of_mem form hg)
      rcases hf with hf | hf
      · exact (affixFormsStep_text e w aNS form f hf).trans hform
      · exact ih htail f hf

theorem affixFormsList_text (e : Engine) (w : LKWord) (aNS wF : Bool)
    (flags : LKFlags) :
    ∀ f ∈ affixFormsList e w aNS wF flags, f.text = w.word :=
  affixFormsGo_text e w aNS wF (decomposeList e.aff w flags)
    (decomposeList_text e.aff w flags)

theorem compoundsByFlags_concat (e : Engine) :
    ∀ fuel w aNS depth c, c ∈ compoundsByFlagsList e fuel w aNS depth →
      concatTexts c = w.word := by
  intro fuel
  induction fuel with
  | zero =>
    intro w aNS depth c hc
    cases hc
  | succ fuel ih =>
    intro w aNS depth c hc
    unfold compoundsByFlagsList at hc
    dsimp only at hc
    have hend : ∀ c', c' ∈ (if depth ≠ 0 then
        (affixFormsList e (w.shift (some CompoundPos.END)) aNS false
          ⟨(match e.aff.COMPOUNDPERMITFLAG with | some f => [f] | none => []), [],
            (match e.aff.COMPOUNDFORBIDFLAG with | some f => [f] | none => [])⟩).map
          (fun form => [form])
      else []) → concatTexts c' = w.word := by
      intro c' hc'
      split at hc'
      · rw [List.mem_map] at hc'
        obtain ⟨form, hform, rfl⟩ := hc'
        rw [concatTexts_single]
        exact affixFormsList_text e (w.shift (some CompoundPos.END)) aNS false _
          form hform
      · cases hc'
    have hpiece : ∀ (cp : CompoundPos) (pfl pml fbl : Flags) (pos : Nat)
        (c' : List AffixForm),
        (c' ∈ (affixFormsList e { w.sliceTo pos with pos := some cp } aNS false
            ⟨pfl, pml, fbl⟩).flatMap (fun form =>
              (compoundsByFlagsList e fuel { w.sliceFrom pos with pos := some cp }
                aNS (depth + 1)).map (fun part => form :: part)) ∨
          c' ∈ (if e.aff.SIMPLIFIEDTRIPLE = true ∧
              ({ w.sliceTo pos with pos := some cp } : LKWord).at (-1) =
                ({ w.sliceFrom pos with pos := some cp } : LKWord).at 0 then
            (affixFormsList e
                (({ w.sliceTo pos with pos := some cp } : LKWord).addC
                  (({ w.sliceTo pos with pos := some cp } : LKWord).at (-1)))
                aNS false ⟨pfl, pml, fbl⟩).flatMap (fun form =>
              (compoundsByFlagsList e fuel { w.sliceFrom pos with pos := some cp }
                aNS (depth + 1)).map (fun part =>
                  form.replaceF (some ({ w.sliceTo pos with pos := some cp } :
                    LKWord).word) none none none none none none :: part))
          else [])) →
        concatTexts c' = w.word := by
      intro cp pfl pml fbl pos c' h
      rcases h with h | h
      · simp only [List.mem_flatMap, List.mem_map] at h
        obtain ⟨form, hform, part, hpart, rfl⟩ := h
        rw [concatTexts_cons]
        have h1 : form.text = w.word.take pos :=
          affixFormsList_text e _ aNS false _ form hform
        have h2 : concatTexts part = w.word.drop pos := ih _ aNS _ part hpart
        rw [h1, h2, List.take_append_drop]
      · split at h
        · simp only [List.mem_flatMap, List.mem_map] at h
          obtain ⟨form, -, part, hpart, rfl⟩ := h
          rw [concatTexts_cons]
          have h2 : concatTexts part = w.word.drop pos := ih _ aNS _ part hpart
          show w.word.take pos ++ concatTexts part = w.word
          rw [h2, List.take_append_drop]
        · cases h
    split at hc
    · exact hend c hc
    · split at hc
      · exact hend c hc
      · rw [List.mem_append] at hc
        rcases hc with hc | hc
        · exact hend c hc
        · rw [List.mem_flatMap] at hc
          obtain ⟨pos, -, hc⟩ := hc
          rw [List.mem_append] at hc
          exact hpiece _ _ _ _ pos c hc

theorem compoundsByRules_concat (e : Engine) :
    ∀ fuel w prev rules c, c ∈ compoundsByRulesList e fuel w prev rules →
      concatTexts c = w.word := by
  intro fuel
  induction fuel with
  | zero =>
    intro w prev rules c hc
    cases hc
  | succ fuel ih =>
    intro w prev rules c hc
    unfold compoundsByRulesList at hc
    dsimp only at hc
    have hbase : ∀ c', c' ∈ (if ¬ prev.isEmpty then
        (e.dic.homonyms w.word false).flatMap (fun homonym =>
          if rules.any (fun rule =>
              rule.matchR (wordFlagSets (prev ++ [homonym])) false) then
            [[AffixForm.ofWord w]]
          else [])
      else []) → concatTexts c' = w.word := by
      intro c' hc'
      split at hc'
      · simp only [List.mem_flatMap] at hc'
        obtain ⟨hom, -, hc'⟩ := hc'
        split at hc'
        · rw [List.mem_singleton] at hc'
          rw [hc', concatTexts_single]
          rfl
        · cases hc'
      · cases hc'
    split at hc
    · exact hbase c hc
    · split at hc
      · exact hbase c hc
      · rw [List.mem_append] at hc
        rcases hc with hc | hc
        · exact hbase c hc
        · simp only [List.mem_flatMap] at hc
          obtain ⟨pos, -, hom, -, hc⟩ := hc
          split at hc
          · rw [List.mem_map] at hc
            obtain ⟨rest, hrest, rfl⟩ := hc
            rw [concatTexts_cons]
            have h2 : concatTexts rest = w.word.drop pos := ih _ _ _ rest hrest
            show w.word.take pos ++ concatTexts rest = w.word
            rw [h2, List.take_append_drop]
          · cases hc

/-- C5: every compound form yielded by the flag-based generator
(src/lookup/lk-word.ts:613-664, including the SIMPLIFIEDTRIPLE retry,
whose form is re-texted to the original shorter left piece) or by the
rule-based generator (src/lookup/lk-word.ts:670-702) concatenates, part
text by part text, to exactly the surface word being checked. -/
theorem claim_C5_theorem (e : Engine) (fuel : Nat) (w : LKWord) (aNS : Bool)
    (depth : Nat) (prev : List Word) (rules : List CompoundRule)
    (c : List AffixForm)
    (h : c ∈ compoundsByFlagsList e fuel w aNS depth ∨
      c ∈ compoundsByRulesList e fuel w prev rules) :
    concatTexts c = w.word := by
  rcases h with h | h
  · exact compoundsByFlags_concat e fuel w aNS depth c h
  · exact compoundsByRules_concat e fuel w prev rules c h

/-- C5 (witness): the compound `foo + bar` generated for `foobar` in the
S4 engine concatenates to the surface word. -/
theorem claim_C5_witness :
    [formFooCpd, formBarCpd] ∈ compoundsByFlagsList eCpd 7 lkwFoobar true 0 ∧
    concatTexts [formFooCpd, formBarCpd] = lkwFoobar.word :=
  ⟨by decide,
    claim_C5_theorem eCpd 7 lkwFoobar true 0 [] [] [formFooCpd, formBarCpd]
      (Or.inl (by decide))⟩

end ClaimC5

section ClaimC8

theorem addWord_aff (e : Engine) (w0 : Word) : (addWord e w0).aff = e.aff := rfl

theorem homonyms_addWord (e : Engine) (w0 : Word) (s : Str) (ci : Bool) :
    (addWord e w0).dic.homonyms s ci =
      e.dic.homonyms s ci ++ Dic.homonyms ⟨[w0]⟩ s ci := by
  unfold addWord Dic.homonyms
  dsimp only
  split <;> rw [List.filter_append]

theorem mem_homonyms_single (w0 : Word) (s : Str) (ci : Bool) (x : Word)
    (hx : x ∈ Dic.homonyms ⟨[w0]⟩ s ci) : x = w0 := by
  unfold Dic.homonyms at hx
  split at hx <;>
    simpa using (List.mem_filter.mp hx).1

theorem flagless_has (w0 : Word) (h0 : w0.flags? = none) (f : Flag) :
    w0.has f = false := by
  simp [Word.has, h0]

theorem candidatesList_addWord (e : Engine) (w0 : Word) (lkw : LKWord)
    (aNS : Bool) (form : AffixForm) (homs : List Word) :
    candidatesList (addWord e w0) lkw aNS form homs =
      candidatesList e lkw aNS form homs := rfl

theorem candidatesList_append (e : Engine) (lkw : LKWord) (aNS : Bool)
    (form : AffixForm) (h1 h2 : List Word) :
    candidatesList e lkw aNS form (h1 ++ h2) =
      candidatesList e lkw aNS form h1 ++ candidatesList e lkw aNS form h2 :=
  List.filterMap_append h1 h2 _

theorem hasForbiddenB_append (e : Engine) (lkw : LKWord) (form : AffixForm)
    (homs ext : List Word) (hext : ∀ x ∈ ext, ∀ fw, x.has fw = false) :
    hasForbiddenB e lkw form (homs ++ ext) = hasForbiddenB e lkw form homs := by
  unfold hasForbiddenB
  cases hfw : e.aff.FORBIDDENWORD with
  | none => rfl
  | some fw =>
    dsimp only
    split
    · rfl
    · rw [List.any_append]
      have hx : ext.any (fun word => word.has fw) = false := by
        rw [List.any_eq_false]
        intro x hx
        simp [hext x hx fw]
      rw [hx, Bool.or_false]

theorem hasForbiddenB_nil (e : Engine) (lkw : LKWord) (form : AffixForm) :
    hasForbiddenB e lkw form [] = false := by
  unfold hasForbiddenB
  cases hfw : e.aff.FORBIDDENWORD with
  | none => rfl
  | some fw =>
    dsimp only
    split
    · rfl
    · rfl

theorem affixFormsAbort_addWord (e : Engine) (w0 : Word)
    (h0 : w0.flags? = none) (lkw : LKWord) (wF : Bool) (form : AffixForm) :
    affixFormsAbort (addWord e w0) lkw wF form =
      affixFormsAbort e lkw wF form := by
  unfold affixFormsAbort
  dsimp only
  rw [show hasForbiddenB (addWord e w0) lkw form = hasForbiddenB e lkw form
    from rfl]
  rw [homonyms_addWord]
  have hext : ∀ x ∈ Dic.homonyms ⟨[w0]⟩ form.stem false, ∀ fw, x.has fw = false :=
    fun x hx fw => by rw [mem_homonyms_single w0 _ _ x hx]; exact flagless_has w0 h0 fw
  rw [hasForbiddenB_append e lkw form _ _ hext]
  cases hh : (e.dic.homonyms form.stem false).isEmpty with
  | false =>
    have hne : e.dic.homonyms form.stem false ≠ [] := by
      intro hnil
      rw [hnil] at hh
      cases hh
    have hboth : (e.dic.homonyms form.stem false ++
        Dic.homonyms ⟨[w0]⟩ form.stem false).isEmpty = false := by
      rw [List.isEmpty_eq_false]
      simp [hne]
    simp only [hboth, hh]
  | true =>
    rw [List.isEmpty_iff] at hh
    rw [hh, hasForbiddenB_nil, List.nil_append]
    simp

theorem affixFormsStep_ne_nil (e : Engine) (lkw : LKWord) (aNS : Bool)
    (form : AffixForm) :
    affixFormsStep e lkw aNS form ≠ [] ↔
      (candidatesList e lkw aNS form (e.dic.homonyms form.stem false) ≠ [] ∨
        ((lkw.pos = some CompoundPos.BEGIN ∧ e.aff.FORCEUCASE.isSome ∧
            lkw.type = CapType.INIT) ∧
          candidatesList e lkw aNS form
            (e.dic.homonyms (lowercaseStr form.stem) true) ≠ []) ∨
        ((lkw.pos = none ∧ lkw.type = CapType.ALL ∧
            casingGuess lkw.word = CapType.NO) ∧
          candidatesList e lkw aNS form (e.dic.homonyms form.stem true) ≠ [])) := by
  unfold affixFormsStep
  dsimp only
  have h1 : (if ¬ (e.dic.homonyms form.stem false).isEmpty = true then
      candidatesList e lkw aNS form (e.dic.homonyms form.stem false) else []) =
      candidatesList e lkw aNS form (e.dic.homonyms form.stem false) := by
    split
    · rfl
    · rename_i hn
      rw [Bool.not_eq_true, Bool.not_eq_false] at hn
      rw [List.isEmpty_iff] at hn
      rw [hn]
      rfl
  rw [h1]
  by_cases hb2 : lkw.pos = some CompoundPos.BEGIN ∧ e.aff.FORCEUCASE.isSome = true ∧
      lkw.type = CapType.INIT
  · by_cases hB : candidatesList e lkw aNS form
        (e.dic.homonyms (lowercaseStr form.stem) true) = []
    · simp [hb2, hB, List.append_eq_nil]
    · simp [hb2, hB, List.append_eq_nil]
  · by_cases hA : candidatesList e lkw aNS form
        (e.dic.homonyms form.stem false) = []
    · by_cases hg : lkw.pos = none ∧ lkw.type = CapType.ALL ∧
          casingGuess lkw.word = CapType.NO
      · by_cases hE : (e.dic.homonyms form.stem false).isEmpty = true
        · simp [hb2, hA, hg, hE, List.append_eq_nil]
        · simp [hb2, hA, hg, hE, List.append_eq_nil]
      · simp [hb2, hA, hg, List.append_eq_nil]
    · simp [hb2, hA, List.append_eq_nil]

theorem affixFormsStep_addWord (e : Engine) (w0 : Word)
    (lkw : LKWord) (aNS : Bool) (form : AffixForm)
    (h : affixFormsStep e lkw aNS form ≠ []) :
    affixFormsStep (addWord e w0) lkw aNS form ≠ [] := by
  rw [affixFormsStep_ne_nil] at h ⊢
  have hmono : ∀ s ci, candidatesList e lkw aNS form (e.dic.homonyms s ci) ≠ [] →
      candidatesList (addWord e w0) lkw aNS form
        ((addWord e w0).dic.homonyms s ci) ≠ [] := by
    intro s ci hne
    rw [candidatesList_addWord, homonyms_addWord, candidatesList_append]
    simp only [ne_eq, List.append_eq_nil, not_and]
    intro h1
    exact absurd h1 hne
  rcases h with h | ⟨hb2, h⟩ | ⟨hg, h⟩
  · exact Or.inl (hmono _ _ h)
  · exact Or.inr (Or.inl ⟨hb2, hmono _ _ h⟩)
  · exact Or.inr (Or.inr ⟨hg, hmono _ _ h⟩)

theorem affixFormsGo_addWord (e : Engine) (w0 : Word) (h0 : w0.flags? = none)
    (lkw : LKWord) (aNS wF : Bool) :
    ∀ forms, affixFormsGo e lkw aNS wF forms ≠ [] →
      affixFormsGo (addWord e w0) lkw aNS wF forms ≠ [] := by
  intro forms
  induction forms with
  | nil =>
    intro h
    exact absurd rfl h
  | cons form rest ih =>
    intro h
    unfold affixFormsGo at h ⊢
    rw [affixFormsAbort_addWord e w0 h0]
    split at h
    · exact absurd rfl h
    · rename_i habort
      rw [if_neg habort]
      simp only [ne_eq, List.append_eq_nil, not_and] at h ⊢
      intro h1 h2
      by_cases hstep : affixFormsStep e lkw aNS form = []
      · exact (ih (fun hgo => h hstep hgo)) h2
      · exact absurd h1 (affixFormsStep_addWord e w0 lkw aNS form hstep)

/-- C8 (amended): adding a flag-less word to the dictionary preserves the
existence of an accepting AffixForm (`LKWord.affixForms` never loses all
its yields). The original claim fails at the compound layer, where
`isBadCompound` can newly reject every compound (see the
counterexample). -/
theorem claim_C8_theorem (e : Engine) (w0 : Word) (lkw : LKWord)
    (aNS wF : Bool) (flags : LKFlags) (h0 : w0.flags? = none)
    (h : affixFormsList e lkw aNS wF flags ≠ []) :
    affixFormsList (addWord e w0) lkw aNS wF flags ≠ [] := by
  unfold affixFormsList at h ⊢
  rw [addWord_aff]
  exact affixFormsGo_addWord e w0 h0 lkw aNS wF _ h

/-- C8 (counterexample): `foobar` is correct in the S4 compound engine;
adding the flag-less dictionary entry `foo bar` (which carries no
FORBIDDENWORD flag) makes `foobar` incorrect, because the two-word check
of `isBadCompound` now rejects the compound `foo + bar`. -/
theorem claim_C8_counterexample :
    (checkB eCpd (str "foobar")).correct = true ∧
    wFooBar.flags? = none ∧
    eCpdPlus = addWord eCpd wFooBar ∧
    (checkB eCpdPlus (str "foobar")).correct = false := by
  refine ⟨by decide, rfl, rfl, by decide⟩

/-- C8 (witness): the amended theorem applied to the same engine pair:
`foo` keeps its accepting affix form after the flag-less word is
added. -/
theorem claim_C8_witness :
    wFooBar.flags? = none ∧
    affixFormsList eCpd ⟨str "foo", .NO, none⟩ true false LKFlags.empty ≠ [] ∧
    affixFormsList (addWord eCpd wFooBar) ⟨str "foo", .NO, none⟩ true false
      LKFlags.empty ≠ [] :=
  ⟨rfl, by decide,
    claim_C8_theorem eCpd wFooBar ⟨str "foo", .NO, none⟩ true false
      LKFlags.empty rfl (by decide)⟩

end ClaimC8

end Espells
